import Mathlib

/-!
# CHIP-8 emulator: the instruction executor of `emulator.cc`

A shallow embedding of `fetch`, `exec`, `parse_8NNN`, `parse_FNNN`,
`check_keyboard` and the key cases of the run loop of `main`.

* Machine integers are natural numbers; every store into a `uint8_t` or
  `uint16_t` location is reduced modulo `2^8` or `2^16` where the C++
  arithmetic (done in `int` after integer promotion) can leave the range.
* The arrays of `Emulator` are total functions on indices; the embedding
  checks every index the source uses against the array bound and stops in
  `Outcome.outOfBounds` when an access falls outside the array.
* `assert` is active: a failed assertion stops in `Outcome.abort`.
* Calls into SDL that only draw on the renderer do not touch the `Emulator`
  fields modelled here and are left out.
-/

namespace Chip8

/-- Modelled from the spec: `MEMSIZE` is a constant of `emulator.hh`, which is
not among the sources; the spec gives 4096 bytes of memory. -/
@[reducible] def MEMSIZE : Nat := 4096

/-- Modelled from the spec: `STACKSIZE` is a constant of `emulator.hh`; the
spec gives a call stack of capacity 16. -/
@[reducible] def STACKSIZE : Nat := 16

/-- Modelled from the spec: `DISPLAY_WIDTH` is a constant of `emulator.hh`;
the display of this machine is 64 cells wide. -/
@[reducible] def DISPLAY_WIDTH : Nat := 64

/-- Modelled from the spec: `DISPLAY_HEIGHT` is a constant of `emulator.hh`;
the display of this machine is 32 cells high. -/
@[reducible] def DISPLAY_HEIGHT : Nat := 32

/-- The largest `uint8_t`, from `<cstdint>`. -/
@[reducible] def UINT8_MAX : Nat := 255

/-- Modelled from the spec: the struct `Emulator` is declared in `emulator.hh`;
its fields are the ones `emulator.cc` uses, with the widths the spec gives
(8-bit memory bytes, registers and timers; 16-bit `I`, `PC` and stack slots). -/
structure Emulator where
  membuf : Nat → Nat
  regs : Nat → Nat
  I : Nat
  PC : Nat
  stack : Nat → Nat
  delay_timer : Nat
  sound_timer : Nat
  display : Nat → Nat → Nat
  keystates : Nat → Nat

/-- The values of a machine state fit the widths of their C++ types. -/
structure Emulator.WF (e : Emulator) : Prop where
  membuf_lt : ∀ a, a < MEMSIZE → e.membuf a < 256
  regs_lt : ∀ r, r < 16 → e.regs r < 256
  I_lt : e.I < 65536
  PC_lt : e.PC < 65536
  stack_lt : ∀ s, s < STACKSIZE → e.stack s < 65536
  delay_lt : e.delay_timer < 256
  sound_lt : e.sound_timer < 256

/-- How a call of one of the embedded functions ends. -/
inductive Outcome where
  /-- The function returned `r`, leaving the machine in state `e`. -/
  | ret (r : Int) (e : Emulator)
  /-- An `assert` failed with the machine in state `e`. -/
  | abort (e : Emulator)
  /-- An array was indexed outside its bounds. -/
  | outOfBounds
  /-- Control entered the key polling loop of FX0A with the machine in state
  `e`; what follows depends on the SDL event queue. -/
  | keywait (e : Emulator)

/-- The loop `for (k = 0; k != n; ++k) body(k)`. -/
def forUpTo {σ : Type} (n : Nat) (body : Nat → σ → σ) (s : σ) : σ :=
  match n with
  | 0 => s
  | k + 1 => body k (forUpTo k body s)

/-- The assignment `e.regs[i] = v`. -/
def setReg (e : Emulator) (i v : Nat) : Emulator :=
  { e with regs := Function.update e.regs i v }

/-- The assignment `e.membuf[a] = v`. -/
def setMem (e : Emulator) (a v : Nat) : Emulator :=
  { e with membuf := Function.update e.membuf a v }

/-- The assignment `e.display[r][c] = v`. -/
def setCell (e : Emulator) (r c v : Nat) : Emulator :=
  { e with display := Function.update e.display r (Function.update (e.display r) c v) }

/-- The statement `e.PC += 2` on the 16-bit program counter. -/
def skip (e : Emulator) : Emulator :=
  { e with PC := (e.PC + 2) % 65536 }

/-- Scan of the slots `k-1, ..., 0` for a free one. -/
def findstackspaceBelow (e : Emulator) : Nat → Int
  | 0 => -1
  | k + 1 => if e.stack k = 0xFFFF then (k : Int) else findstackspaceBelow e k

/-- Modelled from the spec: `findstackspace` is declared in `emulator.hh` and
its body is not among the sources. The spec makes the call stack a stack of
capacity 16 whose empty slots hold a sentinel: a call pushes and a return pops.
The return of `exec` pops the occupied slot of lowest index, so the push goes
to the free slot of highest index; a full stack gives a negative result, which
the caller asserts against. -/
def findstackspace (e : Emulator) : Int :=
  findstackspaceBelow e STACKSIZE

/-- The function `parse_8NNN` of `emulator.cc`. -/
def parse_8NNN (e : Emulator) (instr : Nat) : Outcome :=
  let fn := (0xF000 &&& instr) >>> 12
  let sn := (0xF00 &&& instr) >>> 8
  let tn := (0xF0 &&& instr) >>> 4
  let pn := 0xF &&& instr
  if fn = 0x8 then
    match pn with
    | 0x0 => .ret 0 (setReg e sn (e.regs tn))
    | 0x1 => .ret 0 (setReg e sn (e.regs sn ||| e.regs tn))
    | 0x2 => .ret 0 (setReg e sn (e.regs sn &&& e.regs tn))
    | 0x3 => .ret 0 (setReg e sn (e.regs sn ^^^ e.regs tn))
    | 0x4 =>
      let e1 := setReg e 0xF 0
      let e2 :=
        if (e1.regs tn : Int) > (UINT8_MAX : Int) - e1.regs sn
            ∨ (e1.regs sn : Int) > (UINT8_MAX : Int) - e1.regs tn then
          setReg e1 0xF 1
        else e1
      .ret 0 (setReg e2 sn ((e2.regs sn + e2.regs tn) % 256))
    | 0x5 =>
      let e1 := setReg e 0xF 1
      let e2 := if e1.regs sn < e1.regs tn then setReg e1 0xF 0 else e1
      .ret 0 (setReg e2 sn ((((e2.regs sn : Int) - e2.regs tn) % 256).toNat))
    | 0x6 =>
      let e1 := setReg e 0xF (e.regs sn &&& 0b1)
      .ret 0 (setReg e1 sn (e1.regs sn >>> 1))
    | 0x7 =>
      let e1 := setReg e 0xF 1
      let e2 := if e1.regs tn < e1.regs sn then setReg e1 0xF 0 else e1
      .ret 0 (setReg e2 sn ((((e2.regs tn : Int) - e2.regs sn) % 256).toNat))
    | 0xE =>
      let e1 := setReg e 0xF ((e.regs sn &&& 0b10000000) >>> 7)
      .ret 0 (setReg e1 sn ((e1.regs sn <<< 1) % 256))
    | _ => .ret (-1) e
  else .abort e

/-- The function `parse_FNNN` of `emulator.cc`. -/
def parse_FNNN (e : Emulator) (instr : Nat) : Outcome :=
  let fn := (0xF000 &&& instr) >>> 12
  let sn := (0xF00 &&& instr) >>> 8
  let tn := (0xF0 &&& instr) >>> 4
  let pn := 0xF &&& instr
  if fn = 0xF then
    if tn = 0x0 ∧ pn = 0x7 then
      .ret 0 (setReg e sn e.delay_timer)
    else if tn = 0x1 ∧ pn = 0x5 then
      .ret 0 { e with delay_timer := e.regs sn }
    else if tn = 0x1 ∧ pn = 0x8 then
      .ret 0 { e with sound_timer := e.regs sn }
    else if tn = 0x1 ∧ pn = 0xE then
      let e1 := { e with I := (e.I + e.regs sn) % 65536 }
      if e1.I > 0xFFF then .ret 0 (setReg e1 0xF 1) else .ret 0 e1
    else if tn = 0x0 ∧ pn = 0xA then
      if e.PC ≥ 2 then .keywait { e with PC := e.PC - 2 } else .abort e
    else if tn = 0x2 ∧ pn = 0x9 then
      let vx_n := e.regs sn &&& 0xF
      .ret 0 { e with I := 0x050 + 5 * vx_n }
    else if tn = 0x3 ∧ pn = 0x3 then
      if e.I < MEMSIZE then
        let e1 := setMem e e.I ((e.regs sn / 100) % 10)
        if e1.I + 1 < MEMSIZE then
          let e2 := setMem e1 (e1.I + 1) ((e1.regs sn / 10) % 10)
          if e2.I + 2 < MEMSIZE then
            .ret 0 (setMem e2 (e2.I + 2) (e2.regs sn % 10))
          else .outOfBounds
        else .outOfBounds
      else .outOfBounds
    else if tn = 0x5 ∧ pn = 0x5 then
      match forUpTo (sn + 1)
          (fun i s => s.bind fun e1 =>
            if e1.I + i < MEMSIZE then some (setMem e1 (e1.I + i) (e1.regs i)) else none)
          (some e) with
      | some e1 => .ret 0 e1
      | none => .outOfBounds
    else if tn = 0x6 ∧ pn = 0x5 then
      match forUpTo (sn + 1)
          (fun i s => s.bind fun e1 =>
            if e1.I + i < MEMSIZE then some (setReg e1 i (e1.membuf (e1.I + i))) else none)
          (some e) with
      | some e1 => .ret 0 e1
      | none => .outOfBounds
    else .ret (-1) e
  else .abort e

/-- The loop of 00EE over the slots `i, i+1, ...` with `k` slots left: the
first slot that does not hold `0xFFFF` goes to `PC` and is reset, and the
loop breaks. -/
def popFrom (e : Emulator) : Nat → Nat → Emulator
  | 0, _ => e
  | k + 1, i =>
    if e.stack i ≠ 0xFFFF then
      { e with PC := e.stack i, stack := Function.update e.stack i 0xFFFF }
    else popFrom e k (i + 1)

/-- The body of the inner loop of DXYN at row `i`, column `j`. -/
def drawPixel (x y i j : Nat) (e : Emulator) : Option Emulator :=
  if e.I + i < MEMSIZE then
    let pixel := (e.membuf (e.I + i) >>> (7 - j)) &&& 1
    if pixel = 1 then
      if y + i < DISPLAY_HEIGHT ∧ x + j < DISPLAY_WIDTH then
        let e1 := if e.display (y + i) (x + j) = 1 then setReg e 0xF 1 else e
        some (setCell e1 (y + i) (x + j) (e1.display (y + i) (x + j) ^^^ pixel))
      else none
    else some e
  else none

/-- The inner loop of DXYN: the eight columns of row `i`. -/
def drawRow (x y i : Nat) (s : Option Emulator) : Option Emulator :=
  forUpTo 8 (fun j s1 => s1.bind (drawPixel x y i j)) s

/-- The function `exec` of `emulator.cc`. The parameter `fss` stands for
`findstackspace` and `rnd nn` for the number that
`std::uniform_int_distribution<int>(0, nn)` draws from a default-constructed
`std::default_random_engine`. -/
def exec (fss : Emulator → Int) (rnd : Nat → Nat) (e : Emulator) (instr : Nat) : Outcome :=
  let fn := (0xF000 &&& instr) >>> 12
  let sn := (0xF00 &&& instr) >>> 8
  let tn := (0xF0 &&& instr) >>> 4
  let pn := 0xF &&& instr
  let nn := 0x00FF &&& instr
  let nnn := 0x0FFF &&& instr
  match fn with
  | 0x0 =>
    if instr = 0x00E0 then
      .ret 0 (forUpTo DISPLAY_HEIGHT
        (fun i s => forUpTo DISPLAY_WIDTH (fun j s1 => setCell s1 i j 0) s) e)
    else if instr = 0x00EE then
      .ret 0 (popFrom e STACKSIZE 0)
    else .ret 0 e
  | 0x1 => .ret 0 { e with PC := nnn }
  | 0x2 =>
    let i := fss e
    if i ≥ 0 then
      if i < STACKSIZE then
        .ret 0 { e with stack := Function.update e.stack i.toNat e.PC, PC := nnn }
      else .outOfBounds
    else .abort e
  | 0x3 => if e.regs sn = nn then .ret 0 (skip e) else .ret 0 e
  | 0x4 => if e.regs sn ≠ nn then .ret 0 (skip e) else .ret 0 e
  | 0x5 =>
    if pn = 0x0 then
      if e.regs sn = e.regs tn then .ret 0 (skip e) else .ret 0 e
    else .ret 0 e
  | 0x6 => .ret 0 (setReg e sn nn)
  | 0x7 => .ret 0 (setReg e sn ((e.regs sn + nn) % 256))
  | 0x8 =>
    match parse_8NNN e instr with
    | .ret r e1 => if r = 0 then .ret 0 e1 else .abort e1
    | o => o
  | 0x9 =>
    if pn = 0x0 then
      if e.regs sn ≠ e.regs tn then .ret 0 (skip e) else .ret 0 e
    else .ret 0 e
  | 0xA => .ret 0 { e with I := nnn }
  | 0xB => .ret 0 { e with PC := (nnn + e.regs sn) % 65536 }
  | 0xC =>
    let rand := rnd nn % 65536
    .ret 0 (setReg e sn ((rand &&& nn) % 256))
  | 0xD =>
    let x := (e.regs sn % DISPLAY_WIDTH) % 256
    let y := (e.regs tn % DISPLAY_HEIGHT) % 256
    let e1 := setReg e 0xF 0
    match forUpTo pn (fun i s => drawRow x y i s) (some e1) with
    | some e2 => .ret 0 e2
    | none => .outOfBounds
  | 0xE =>
    if tn = 0x9 ∧ pn = 0xE then
      if e.regs sn < 16 then
        if e.keystates (e.regs sn) = 1 then .ret 0 (skip e) else .ret 0 e
      else .outOfBounds
    else if tn = 0xA ∧ pn = 0x1 then
      if e.regs sn < 16 then
        if e.keystates (e.regs sn) = 0 then .ret 0 (skip e) else .ret 0 e
      else .outOfBounds
    else .ret 0 e
  | 0xF =>
    match parse_FNNN e instr with
    | .ret s e1 => if s = 0 then .ret 0 e1 else .abort e1
    | o => o
  | _ => .ret (-1) e

/-- The function `fetch` of `emulator.cc`. -/
def fetch (fss : Emulator → Int) (rnd : Nat → Nat) (e : Emulator) (i : Nat) : Outcome :=
  if i + 1 < MEMSIZE then
    let instr := ((e.membuf i <<< 8) ||| e.membuf (i + 1)) % 65536
    let e1 := skip e
    match exec fss rnd e1 instr with
    | .ret r e2 => if r ≠ 0 then .ret (-1) e2 else .ret 0 e2
    | o => o
  else .outOfBounds

/-- The instruction word with the four nibbles `f x y n`. -/
def word (f x y n : Nat) : Nat := 4096 * f + 256 * x + 16 * y + n

/-- A machine state as `main` sets it up before the run loop starts, with an
empty program: every stack slot holds the sentinel and `PC` is at `0x200`. -/
def blank : Emulator :=
  { membuf := fun _ => 0, regs := fun _ => 0, I := 0, PC := 0x200,
    stack := fun _ => 0xFFFF, delay_timer := 0, sound_timer := 0,
    display := fun _ _ => 0, keystates := fun _ => 0 }

/-- The state `blank` with `V1 = 200`, `V2 = 100` and `VF = 100`. -/
def sample : Emulator :=
  { blank with regs := fun r => if r = 1 then 200 else if r = 2 then 100
                                else if r = 0xF then 100 else 0 }

/-- The state `blank` with the word 0x00EE (return) at address 0x200. -/
def returnOnly : Emulator :=
  { blank with membuf := fun a => if a = 0x201 then 0xEE else 0 }

/-- The state `blank` with the word 0x8008 (8XYN with N = 8) at address 0x200. -/
def unknownOnly : Emulator :=
  { blank with membuf := fun a => if a = 0x200 then 0x80 else if a = 0x201 then 0x08 else 0 }

/-- Scan of the slots `i, i+1, ...` with `k` slots left for a free one: the
other way to write `findstackspace`, taking the free slot of lowest index. -/
def lowestFreeFrom (e : Emulator) : Nat → Nat → Int
  | 0, _ => -1
  | k + 1, i => if e.stack i = 0xFFFF then (i : Int) else lowestFreeFrom e k (i + 1)

/-- Bit `7 - j` of row `i` of the sprite at `I`: the value `pixel` of DXYN. -/
def spriteBit (e : Emulator) (i j : Nat) : Nat :=
  (e.membuf (e.I + i) >>> (7 - j)) &&& 1

/-- The state `s` of a draw of the sprite of `e` at `(x, y)` once the sprite
pixels in `done` have been processed: the cells under them are the cells of `e`
XOR the sprite bit, VF records a collision among them, and nothing else differs
from `e`. -/
structure DrawInv (e : Emulator) (x y : Nat) (done : Nat → Nat → Prop) (s : Emulator) :
    Prop where
  membuf_eq : s.membuf = e.membuf
  I_eq : s.I = e.I
  PC_eq : s.PC = e.PC
  stack_eq : s.stack = e.stack
  delay_eq : s.delay_timer = e.delay_timer
  sound_eq : s.sound_timer = e.sound_timer
  keys_eq : s.keystates = e.keystates
  regs_eq : ∀ r, r ≠ 0xF → s.regs r = e.regs r
  flag_set : (∃ i j, done i j ∧ spriteBit e i j = 1 ∧ e.display (y + i) (x + j) = 1) →
    s.regs 0xF = 1
  flag_clear : ¬ (∃ i j, done i j ∧ spriteBit e i j = 1 ∧ e.display (y + i) (x + j) = 1) →
    s.regs 0xF = 0
  cell_done : ∀ i j, done i j →
    s.display (y + i) (x + j) = e.display (y + i) (x + j) ^^^ spriteBit e i j
  cell_other : ∀ r c, ¬ (∃ i j, done i j ∧ r = y + i ∧ c = x + j) →
    s.display r c = e.display r c

/-- The state `sample` with I = 0x300, the two sprite rows 0xF0 and 0x90 stored
there, and the display cell at row 4, column 8 lit. -/
def drawSample : Emulator :=
  { sample with
    I := 0x300
    membuf := fun a => if a = 0x300 then 0xF0 else if a = 0x301 then 0x90 else 0
    display := fun r c => if r = 4 ∧ c = 8 then 1 else 0 }

/-- The state `blank` with V1 = 60, V2 = 31, I = 0x300 and the two sprite rows
0xFF and 0xFF stored there: a sprite drawn at column 60 or at row 31 passes the
right or the bottom edge. -/
def edgeSample : Emulator :=
  { blank with
    regs := fun r => if r = 1 then 60 else if r = 2 then 31 else 0
    I := 0x300
    membuf := fun a => if a = 0x300 then 0xFF else if a = 0x301 then 0xFF else 0 }

/-- The six fields `exec` extracts from the instruction word before it
dispatches: four nibbles, the 8-bit number and the 12-bit address. -/
structure Fields where
  fn : Nat
  sn : Nat
  tn : Nat
  pn : Nat
  nn : Nat
  nnn : Nat

/-- The extraction at the top of `exec` (and, for the nibbles, of `parse_8NNN`
and `parse_FNNN`). -/
def fields (instr : Nat) : Fields :=
  { fn := (0xF000 &&& instr) >>> 12
    sn := (0xF00 &&& instr) >>> 8
    tn := (0xF0 &&& instr) >>> 4
    pn := 0xF &&& instr
    nn := 0x00FF &&& instr
    nnn := 0x0FFF &&& instr }

/-- The key codes of SDL that `check_keyboard` names (`SDL_keycode.h`): the
code of a character key is the character's ASCII code. -/
@[reducible] def SDLK_1 : Nat := 49

@[reducible] def SDLK_2 : Nat := 50

@[reducible] def SDLK_3 : Nat := 51

@[reducible] def SDLK_4 : Nat := 52

@[reducible] def SDLK_q : Nat := 113

@[reducible] def SDLK_w : Nat := 119

@[reducible] def SDLK_e : Nat := 101

@[reducible] def SDLK_r : Nat := 114

@[reducible] def SDLK_a : Nat := 97

@[reducible] def SDLK_s : Nat := 115

@[reducible] def SDLK_d : Nat := 100

@[reducible] def SDLK_f : Nat := 102

@[reducible] def SDLK_z : Nat := 122

@[reducible] def SDLK_x : Nat := 120

@[reducible] def SDLK_c : Nat := 99

@[reducible] def SDLK_v : Nat := 118

/-- The key code of the key P, one of the keys `check_keyboard` does not name. -/
@[reducible] def SDLK_p : Nat := 112

/-- The function `check_keyboard` of `emulator.cc`, with the key code
`s.key.keysym.sym` of the pending event as its argument. -/
def check_keyboard (sym : Nat) : Int :=
  if sym = SDLK_1 then 0x1
  else if sym = SDLK_2 then 0x2
  else if sym = SDLK_3 then 0x3
  else if sym = SDLK_4 then 0xC
  else if sym = SDLK_q then 0x4
  else if sym = SDLK_w then 0x5
  else if sym = SDLK_e then 0x6
  else if sym = SDLK_r then 0xD
  else if sym = SDLK_a then 0x7
  else if sym = SDLK_s then 0x8
  else if sym = SDLK_d then 0x9
  else if sym = SDLK_f then 0xE
  else if sym = SDLK_z then 0xA
  else if sym = SDLK_x then 0x0
  else if sym = SDLK_c then 0xB
  else if sym = SDLK_v then 0xF
  else -1

/-- The case `SDL_KEYDOWN` of the run loop of `main` for an event with key code
`sym`: `d = check_keyboard(); e.keystates[d] = 1`. The result is `none` when
the index falls outside the 16 entries of `keystates`. -/
def onKeyDown (e : Emulator) (sym : Nat) : Option Emulator :=
  let d := check_keyboard sym
  if 0 ≤ d ∧ d < 16 then
    some { e with keystates := Function.update e.keystates d.toNat 1 }
  else none

/-- The case `SDL_KEYUP` of the run loop of `main` for an event with key code
`sym`: `u = check_keyboard(); e.keystates[u] = 0`. -/
def onKeyUp (e : Emulator) (sym : Nat) : Option Emulator :=
  let u := check_keyboard sym
  if 0 ≤ u ∧ u < 16 then
    some { e with keystates := Function.update e.keystates u.toNat 0 }
  else none

/-- The state `blank` with all 16 stack slots occupied by the address 0x200. -/
def fullStack : Emulator :=
  { blank with stack := fun _ => 0x200 }

/-! ## Decoding -/

theorem land_mask (k w : Nat) : (2 ^ k - 1) &&& w = w % 2 ^ k := by
  rw [Nat.land_comm, Nat.and_pow_two_sub_one_eq_mod]

theorem land_shift_mask (m k w : Nat) : ((m <<< k) &&& w) >>> k = m &&& (w >>> k) := by
  apply Nat.eq_of_testBit_eq
  intro j
  simp [Nat.testBit_shiftLeft]

theorem pn_eq (w : Nat) : 0xF &&& w = w % 16 := land_mask 4 w

theorem nn_eq (w : Nat) : 0x00FF &&& w = w % 256 := land_mask 8 w

theorem nnn_eq (w : Nat) : 0x0FFF &&& w = w % 4096 := land_mask 12 w

theorem tn_eq (w : Nat) : (0xF0 &&& w) >>> 4 = w / 16 % 16 := by
  have h : (0xF0 &&& w) >>> 4 = 0xF &&& (w >>> 4) := land_shift_mask 15 4 w
  rw [h, pn_eq, Nat.shiftRight_eq_div_pow]

theorem sn_eq (w : Nat) : (0xF00 &&& w) >>> 8 = w / 256 % 16 := by
  have h : (0xF00 &&& w) >>> 8 = 0xF &&& (w >>> 8) := land_shift_mask 15 8 w
  rw [h, pn_eq, Nat.shiftRight_eq_div_pow]

theorem fn_eq (w : Nat) : (0xF000 &&& w) >>> 12 = w / 4096 % 16 := by
  have h : (0xF000 &&& w) >>> 12 = 0xF &&& (w >>> 12) := land_shift_mask 15 12 w
  rw [h, pn_eq, Nat.shiftRight_eq_div_pow]

section Word

set_option linter.unusedSectionVars false

variable {f x y n : Nat} (hf : f < 16) (hx : x < 16) (hy : y < 16) (hn : n < 16)
include hf hx hy hn

theorem word_fn : (0xF000 &&& word f x y n) >>> 12 = f := by
  rw [fn_eq]; unfold word; omega

theorem word_sn : (0xF00 &&& word f x y n) >>> 8 = x := by
  rw [sn_eq]; unfold word; omega

theorem word_tn : (0xF0 &&& word f x y n) >>> 4 = y := by
  rw [tn_eq]; unfold word; omega

theorem word_pn : 0xF &&& word f x y n = n := by
  rw [pn_eq]; unfold word; omega

theorem word_nn : 0x00FF &&& word f x y n = 16 * y + n := by
  rw [nn_eq]; unfold word; omega

theorem word_nnn : 0x0FFF &&& word f x y n = 256 * x + 16 * y + n := by
  rw [nnn_eq]; unfold word; omega

end Word

/-! ## Registers -/

@[simp] theorem setReg_regs_same (e : Emulator) (i v : Nat) : (setReg e i v).regs i = v := by
  simp [setReg]

theorem setReg_regs_ne (e : Emulator) {i k : Nat} (v : Nat) (h : k ≠ i) :
    (setReg e i v).regs k = e.regs k := by
  simp [setReg, Function.update_noteq h]

theorem sample_WF : sample.WF where
  membuf_lt := fun _ _ => by simp [sample, blank]
  regs_lt := fun r _ => by simp only [sample]; split_ifs <;> omega
  I_lt := by simp [sample, blank]
  PC_lt := by simp [sample, blank]
  stack_lt := fun _ _ => by simp [sample, blank]
  delay_lt := by simp [sample, blank]
  sound_lt := by simp [sample, blank]

/-! ## The arithmetic family 8XYN -/

/-- The call of `parse_8NNN` in `exec`: a result 0 passes the assertion. -/
theorem exec_8_ret (fss : Emulator → Int) (rnd : Nat → Nat) (e e1 : Emulator)
    {X Y n : Nat} (hX : X < 16) (hY : Y < 16) (hn : n < 16)
    (h : parse_8NNN e (word 8 X Y n) = .ret 0 e1) :
    exec fss rnd e (word 8 X Y n) = .ret 0 e1 := by
  have h8 : (8 : Nat) < 16 := by decide
  simp only [exec, word_fn h8 hX hY hn, h]
  simp

theorem parse_8NNN_add (e : Emulator) {X Y : Nat} (hX : X < 16) (hY : Y < 16) :
    parse_8NNN e (word 8 X Y 4) =
      (let e1 := setReg e 0xF 0
       let e2 :=
        if (e1.regs Y : Int) > (UINT8_MAX : Int) - e1.regs X
            ∨ (e1.regs X : Int) > (UINT8_MAX : Int) - e1.regs Y then
          setReg e1 0xF 1
        else e1
      .ret 0 (setReg e2 X ((e2.regs X + e2.regs Y) % 256))) := by
  have h8 : (8 : Nat) < 16 := by decide
  have h4 : (4 : Nat) < 16 := by decide
  simp only [parse_8NNN, word_fn h8 hX hY h4, word_sn h8 hX hY h4, word_tn h8 hX hY h4,
    word_pn h8 hX hY h4]
  simp

/-- C1: 8XY4 with X and Y other than 0xF leaves VX = (a + b) mod 256 and
VF = 1 when a + b > 255, VF = 0 otherwise, for a = VX and b = VY before the
instruction (X = Y included). -/
theorem add_sets_sum_and_carry (fss : Emulator → Int) (rnd : Nat → Nat) (e : Emulator)
    (X Y : Nat) (hX : X < 16) (hY : Y < 16) (hXF : X ≠ 0xF) (hYF : Y ≠ 0xF) :
    ∃ e1, exec fss rnd e (word 8 X Y 4) = .ret 0 e1 ∧
      parse_8NNN e (word 8 X Y 4) = .ret 0 e1 ∧
      e1.regs X = (e.regs X + e.regs Y) % 256 ∧
      e1.regs 0xF = if e.regs X + e.regs Y > 255 then 1 else 0 := by
  have hp := parse_8NNN_add e hX hY
  simp only [setReg_regs_ne e 0 hXF, setReg_regs_ne e 0 hYF] at hp
  by_cases hc : e.regs X + e.regs Y > 255
  · have hc1 : (e.regs Y : Int) > (UINT8_MAX : Int) - e.regs X
        ∨ (e.regs X : Int) > (UINT8_MAX : Int) - e.regs Y := by
      left; simp only [UINT8_MAX]; omega
    rw [if_pos hc1] at hp
    simp only [setReg_regs_ne _ 1 hXF, setReg_regs_ne _ 1 hYF, setReg_regs_ne e 0 hXF,
      setReg_regs_ne e 0 hYF] at hp
    refine ⟨_, exec_8_ret fss rnd e _ hX hY (by decide) hp, hp, by simp, ?_⟩
    rw [setReg_regs_ne _ _ (Ne.symm hXF), if_pos hc]; simp
  · have hc1 : ¬ ((e.regs Y : Int) > (UINT8_MAX : Int) - e.regs X
        ∨ (e.regs X : Int) > (UINT8_MAX : Int) - e.regs Y) := by
      simp only [UINT8_MAX]; omega
    rw [if_neg hc1] at hp
    simp only [setReg_regs_ne e 0 hXF, setReg_regs_ne e 0 hYF] at hp
    refine ⟨_, exec_8_ret fss rnd e _ hX hY (by decide) hp, hp, by simp, ?_⟩
    rw [setReg_regs_ne _ _ (Ne.symm hXF), if_neg hc]; simp

/-- The instance of C1 at `sample`, X = 1, Y = 2: 200 + 100 wraps to 44 with carry. -/
theorem add_sets_sum_and_carry_witness :
    ∃ e1, exec findstackspace (fun _ => 0) sample (word 8 1 2 4) = .ret 0 e1 ∧
      parse_8NNN sample (word 8 1 2 4) = .ret 0 e1 ∧
      e1.regs 1 = (sample.regs 1 + sample.regs 2) % 256 ∧
      e1.regs 0xF = if sample.regs 1 + sample.regs 2 > 255 then 1 else 0 :=
  add_sets_sum_and_carry findstackspace (fun _ => 0) sample 1 2
    (by decide) (by decide) (by decide) (by decide)

/-- C2: 8XY4 with the flag register as an operand. At `sample` (V1 = 200,
VF = 100) the word 0x81F4 leaves V1 = 200 and VF = 0, where the sum of the
values held before is 300: the flag is cleared before the operands are read.
The word 0x8F14 leaves VF = 200, the sum written over the flag. -/
theorem add_with_flag_operand :
    (∃ e1, exec findstackspace (fun _ => 0) sample 0x81F4 = .ret 0 e1 ∧
      e1.regs 1 = 200 ∧ e1.regs 0xF = 0) ∧
    (∃ e2, exec findstackspace (fun _ => 0) sample 0x8F14 = .ret 0 e2 ∧
      e2.regs 0xF = 200) ∧
    sample.regs 1 + sample.regs 0xF = 300 := by
  refine ⟨⟨_, rfl, ?_, ?_⟩, ⟨_, rfl, ?_⟩, ?_⟩ <;> decide

theorem parse_8NNN_sub (e : Emulator) {X Y : Nat} (hX : X < 16) (hY : Y < 16) :
    parse_8NNN e (word 8 X Y 5) =
      (let e1 := setReg e 0xF 1
       let e2 := if e1.regs X < e1.regs Y then setReg e1 0xF 0 else e1
       .ret 0 (setReg e2 X ((((e2.regs X : Int) - e2.regs Y) % 256).toNat))) := by
  have h8 : (8 : Nat) < 16 := by decide
  have h5 : (5 : Nat) < 16 := by decide
  simp only [parse_8NNN, word_fn h8 hX hY h5, word_sn h8 hX hY h5, word_tn h8 hX hY h5,
    word_pn h8 hX hY h5]
  simp

theorem parse_8NNN_subn (e : Emulator) {X Y : Nat} (hX : X < 16) (hY : Y < 16) :
    parse_8NNN e (word 8 X Y 7) =
      (let e1 := setReg e 0xF 1
       let e2 := if e1.regs Y < e1.regs X then setReg e1 0xF 0 else e1
       .ret 0 (setReg e2 X ((((e2.regs Y : Int) - e2.regs X) % 256).toNat))) := by
  have h8 : (8 : Nat) < 16 := by decide
  have h7 : (7 : Nat) < 16 := by decide
  simp only [parse_8NNN, word_fn h8 hX hY h7, word_sn h8 hX hY h7, word_tn h8 hX hY h7,
    word_pn h8 hX hY h7]
  simp

theorem parse_8NNN_shr (e : Emulator) {X Y : Nat} (hX : X < 16) (hY : Y < 16) :
    parse_8NNN e (word 8 X Y 6) =
      (let e1 := setReg e 0xF (e.regs X &&& 0b1)
       .ret 0 (setReg e1 X (e1.regs X >>> 1))) := by
  have h8 : (8 : Nat) < 16 := by decide
  have h6 : (6 : Nat) < 16 := by decide
  simp only [parse_8NNN, word_fn h8 hX hY h6, word_sn h8 hX hY h6, word_tn h8 hX hY h6,
    word_pn h8 hX hY h6]
  simp

theorem parse_8NNN_shl (e : Emulator) {X Y : Nat} (hX : X < 16) (hY : Y < 16) :
    parse_8NNN e (word 8 X Y 0xE) =
      (let e1 := setReg e 0xF ((e.regs X &&& 0b10000000) >>> 7)
       .ret 0 (setReg e1 X ((e1.regs X <<< 1) % 256))) := by
  have h8 : (8 : Nat) < 16 := by decide
  have hE : (0xE : Nat) < 16 := by decide
  simp only [parse_8NNN, word_fn h8 hX hY hE, word_sn h8 hX hY hE, word_tn h8 hX hY hE,
    word_pn h8 hX hY hE]
  simp

theorem toNat_emod_256 (z : Int) : (((z % 256).toNat : Nat) : Int) = z % 256 :=
  Int.toNat_of_nonneg (Int.emod_nonneg z (by decide))

/-- C3: with X and Y other than 0xF, a = VX and b = VY before the instruction,
8XY5 leaves VX = (a - b) mod 256 and VF = 1 exactly when a >= b, and 8XY7
leaves VX = (b - a) mod 256 and VF = 1 exactly when b >= a; VF is 0 otherwise. -/
theorem sub_sets_difference_and_no_borrow (fss : Emulator → Int) (rnd : Nat → Nat)
    (e : Emulator) (X Y : Nat) (hX : X < 16) (hY : Y < 16) (hXF : X ≠ 0xF) (hYF : Y ≠ 0xF) :
    (∃ e1, exec fss rnd e (word 8 X Y 5) = .ret 0 e1 ∧
      parse_8NNN e (word 8 X Y 5) = .ret 0 e1 ∧
      (e1.regs X : Int) = ((e.regs X : Int) - e.regs Y) % 256 ∧
      e1.regs 0xF = if e.regs X ≥ e.regs Y then 1 else 0) ∧
    (∃ e2, exec fss rnd e (word 8 X Y 7) = .ret 0 e2 ∧
      parse_8NNN e (word 8 X Y 7) = .ret 0 e2 ∧
      (e2.regs X : Int) = ((e.regs Y : Int) - e.regs X) % 256 ∧
      e2.regs 0xF = if e.regs Y ≥ e.regs X then 1 else 0) := by
  constructor
  · have hp := parse_8NNN_sub e hX hY
    simp only [setReg_regs_ne e 1 hXF, setReg_regs_ne e 1 hYF] at hp
    refine ⟨_, exec_8_ret fss rnd e _ hX hY (by decide) hp, hp, ?_, ?_⟩
    · rw [setReg_regs_same, toNat_emod_256]
      split_ifs <;> simp only [setReg_regs_ne _ _ hXF, setReg_regs_ne _ _ hYF]
    · rw [setReg_regs_ne _ _ (Ne.symm hXF)]
      by_cases hc : e.regs X < e.regs Y
      · rw [if_pos hc, if_neg (by omega), setReg_regs_same]
      · rw [if_neg hc, if_pos (by omega), setReg_regs_same]
  · have hp := parse_8NNN_subn e hX hY
    simp only [setReg_regs_ne e 1 hXF, setReg_regs_ne e 1 hYF] at hp
    refine ⟨_, exec_8_ret fss rnd e _ hX hY (by decide) hp, hp, ?_, ?_⟩
    · rw [setReg_regs_same, toNat_emod_256]
      split_ifs <;> simp only [setReg_regs_ne _ _ hXF, setReg_regs_ne _ _ hYF]
    · rw [setReg_regs_ne _ _ (Ne.symm hXF)]
      by_cases hc : e.regs Y < e.regs X
      · rw [if_pos hc, if_neg (by omega), setReg_regs_same]
      · rw [if_neg hc, if_pos (by omega), setReg_regs_same]

/-- The instance of C3 at `sample`, X = 1, Y = 2 (a = 200, b = 100). -/
theorem sub_sets_difference_and_no_borrow_witness :
    (∃ e1, exec findstackspace (fun _ => 0) sample (word 8 1 2 5) = .ret 0 e1 ∧
      parse_8NNN sample (word 8 1 2 5) = .ret 0 e1 ∧
      (e1.regs 1 : Int) = ((sample.regs 1 : Int) - sample.regs 2) % 256 ∧
      e1.regs 0xF = if sample.regs 1 ≥ sample.regs 2 then 1 else 0) ∧
    (∃ e2, exec findstackspace (fun _ => 0) sample (word 8 1 2 7) = .ret 0 e2 ∧
      parse_8NNN sample (word 8 1 2 7) = .ret 0 e2 ∧
      (e2.regs 1 : Int) = ((sample.regs 2 : Int) - sample.regs 1) % 256 ∧
      e2.regs 0xF = if sample.regs 2 ≥ sample.regs 1 then 1 else 0) :=
  sub_sets_difference_and_no_borrow findstackspace (fun _ => 0) sample 1 2
    (by decide) (by decide) (by decide) (by decide)

/-- C4: with X other than 0xF and s = VX before the instruction, 8XY6 leaves
VF = s & 1 and VX = s >> 1, and 8XYE leaves VF = (s >> 7) & 1 and
VX = (s << 1) mod 256; every register other than VX and VF, VY among them,
keeps its value. -/
theorem shift_in_place (fss : Emulator → Int) (rnd : Nat → Nat)
    (e : Emulator) (X Y : Nat) (hX : X < 16) (hY : Y < 16) (hXF : X ≠ 0xF) :
    (∃ e1, exec fss rnd e (word 8 X Y 6) = .ret 0 e1 ∧
      parse_8NNN e (word 8 X Y 6) = .ret 0 e1 ∧
      e1.regs 0xF = e.regs X &&& 1 ∧ e1.regs X = e.regs X >>> 1 ∧
      ∀ r, r ≠ X → r ≠ 0xF → e1.regs r = e.regs r) ∧
    (∃ e2, exec fss rnd e (word 8 X Y 0xE) = .ret 0 e2 ∧
      parse_8NNN e (word 8 X Y 0xE) = .ret 0 e2 ∧
      e2.regs 0xF = (e.regs X >>> 7) &&& 1 ∧ e2.regs X = (e.regs X <<< 1) % 256 ∧
      ∀ r, r ≠ X → r ≠ 0xF → e2.regs r = e.regs r) := by
  constructor
  · have hp := parse_8NNN_shr e hX hY
    simp only [setReg_regs_ne e _ hXF] at hp
    refine ⟨_, exec_8_ret fss rnd e _ hX hY (by decide) hp, hp, ?_, ?_, ?_⟩
    · rw [setReg_regs_ne _ _ (Ne.symm hXF), setReg_regs_same]
    · rw [setReg_regs_same]
    · intro r hrX hrF
      rw [setReg_regs_ne _ _ hrX, setReg_regs_ne _ _ hrF]
  · have hp := parse_8NNN_shl e hX hY
    simp only [setReg_regs_ne e _ hXF] at hp
    refine ⟨_, exec_8_ret fss rnd e _ hX hY (by decide) hp, hp, ?_, ?_, ?_⟩
    · rw [setReg_regs_ne _ _ (Ne.symm hXF), setReg_regs_same, Nat.land_comm,
        Nat.land_comm (e.regs X >>> 7)]
      exact land_shift_mask 1 7 (e.regs X)
    · rw [setReg_regs_same]
    · intro r hrX hrF
      rw [setReg_regs_ne _ _ hrX, setReg_regs_ne _ _ hrF]

/-- The instance of C4 at `sample`, X = 1, Y = 2 (s = 200). -/
theorem shift_in_place_witness :
    (∃ e1, exec findstackspace (fun _ => 0) sample (word 8 1 2 6) = .ret 0 e1 ∧
      parse_8NNN sample (word 8 1 2 6) = .ret 0 e1 ∧
      e1.regs 0xF = sample.regs 1 &&& 1 ∧ e1.regs 1 = sample.regs 1 >>> 1 ∧
      ∀ r, r ≠ 1 → r ≠ 0xF → e1.regs r = sample.regs r) ∧
    (∃ e2, exec findstackspace (fun _ => 0) sample (word 8 1 2 0xE) = .ret 0 e2 ∧
      parse_8NNN sample (word 8 1 2 0xE) = .ret 0 e2 ∧
      e2.regs 0xF = (sample.regs 1 >>> 7) &&& 1 ∧ e2.regs 1 = (sample.regs 1 <<< 1) % 256 ∧
      ∀ r, r ≠ 1 → r ≠ 0xF → e2.regs r = sample.regs r) :=
  shift_in_place findstackspace (fun _ => 0) sample 1 2 (by decide) (by decide) (by decide)

/-! ## Skips -/

/-- Adding 0 or 2 to the program counter. -/
theorem skip_or_stay (e : Emulator) (hPC : e.PC < 65536) (c : Prop) [Decidable c] :
    (if c then Outcome.ret 0 (skip e) else Outcome.ret 0 e) =
      Outcome.ret 0 { e with PC := (e.PC + if c then 2 else 0) % 65536 } := by
  by_cases h : c
  · simp [h, skip]
  · simp [h, Nat.mod_eq_of_lt hPC]

/-- C5: each skip-if opcode run through `exec` returns 0 and leaves the program
counter at its value on entry plus 2 (modulo 2^16) when its condition holds and
plus 0 when it does not; nothing else in the machine state changes. The
conditions are VX = NN for 3XNN, VX != NN for 4XNN, VX = VY for 5XY0 and
VX != VY for 9XY0. -/
theorem skip_if_adds_two_or_zero (fss : Emulator → Int) (rnd : Nat → Nat) (e : Emulator)
    (X Y N : Nat) (hwf : e.WF) (hX : X < 16) (hY : Y < 16) (hN : N < 16) :
    exec fss rnd e (word 3 X Y N) =
        .ret 0 { e with PC := (e.PC + if e.regs X = 16 * Y + N then 2 else 0) % 65536 } ∧
    exec fss rnd e (word 4 X Y N) =
        .ret 0 { e with PC := (e.PC + if e.regs X ≠ 16 * Y + N then 2 else 0) % 65536 } ∧
    exec fss rnd e (word 5 X Y 0) =
        .ret 0 { e with PC := (e.PC + if e.regs X = e.regs Y then 2 else 0) % 65536 } ∧
    exec fss rnd e (word 9 X Y 0) =
        .ret 0 { e with PC := (e.PC + if e.regs X ≠ e.regs Y then 2 else 0) % 65536 } := by
  have h0 : (0 : Nat) < 16 := by decide
  have h3 : (3 : Nat) < 16 := by decide
  have h4 : (4 : Nat) < 16 := by decide
  have h5 : (5 : Nat) < 16 := by decide
  have h9 : (9 : Nat) < 16 := by decide
  refine ⟨?_, ?_, ?_, ?_⟩
  · simp only [exec, word_fn h3 hX hY hN, word_sn h3 hX hY hN, word_nn h3 hX hY hN]
    exact skip_or_stay e hwf.PC_lt _
  · simp only [exec, word_fn h4 hX hY hN, word_sn h4 hX hY hN, word_nn h4 hX hY hN]
    exact skip_or_stay e hwf.PC_lt _
  · simp only [exec, word_fn h5 hX hY h0, word_sn h5 hX hY h0, word_tn h5 hX hY h0,
      word_pn h5 hX hY h0, if_true]
    exact skip_or_stay e hwf.PC_lt _
  · simp only [exec, word_fn h9 hX hY h0, word_sn h9 hX hY h0, word_tn h9 hX hY h0,
      word_pn h9 hX hY h0, if_true]
    exact skip_or_stay e hwf.PC_lt _

/-- The instance of C5 at `sample`, X = 1, NN = 0xC8 = 200 = V1, Y = 12. -/
theorem skip_if_adds_two_or_zero_witness :
    exec findstackspace (fun _ => 0) sample (word 3 1 12 8) =
        .ret 0 { sample with
          PC := (sample.PC + if sample.regs 1 = 16 * 12 + 8 then 2 else 0) % 65536 } ∧
    exec findstackspace (fun _ => 0) sample (word 4 1 12 8) =
        .ret 0 { sample with
          PC := (sample.PC + if sample.regs 1 ≠ 16 * 12 + 8 then 2 else 0) % 65536 } ∧
    exec findstackspace (fun _ => 0) sample (word 5 1 12 0) =
        .ret 0 { sample with
          PC := (sample.PC + if sample.regs 1 = sample.regs 12 then 2 else 0) % 65536 } ∧
    exec findstackspace (fun _ => 0) sample (word 9 1 12 0) =
        .ret 0 { sample with
          PC := (sample.PC + if sample.regs 1 ≠ sample.regs 12 then 2 else 0) % 65536 } :=
  skip_if_adds_two_or_zero findstackspace (fun _ => 0) sample 1 12 8 sample_WF
    (by decide) (by decide) (by decide)

/-! ## Call and return -/

theorem exec_return (fss : Emulator → Int) (rnd : Nat → Nat) (e : Emulator) :
    exec fss rnd e 0x00EE = .ret 0 (popFrom e STACKSIZE 0) := rfl

theorem exec_call (fss : Emulator → Int) (rnd : Nat → Nat) (e : Emulator)
    {NNN : Nat} (hN : NNN < 4096) :
    exec fss rnd e (0x2000 + NNN) =
      if fss e ≥ 0 then
        if fss e < STACKSIZE then
          .ret 0 { e with stack := Function.update e.stack (fss e).toNat e.PC, PC := NNN }
        else .outOfBounds
      else .abort e := by
  have hfn : (0xF000 &&& (0x2000 + NNN)) >>> 12 = 2 := by rw [fn_eq]; omega
  have hnnn : 0x0FFF &&& (0x2000 + NNN) = NNN := by rw [nnn_eq]; omega
  simp only [exec, hfn, hnnn]

/-- The return loop leaves a state alone when every slot it scans is empty. -/
theorem popFrom_empty (e : Emulator) (k j : Nat)
    (h : ∀ s, j ≤ s → s < j + k → e.stack s = 0xFFFF) : popFrom e k j = e := by
  induction k generalizing j with
  | zero => rfl
  | succ k ih =>
    have hj : e.stack j = 0xFFFF := h j (Nat.le_refl j) (by omega)
    simp only [popFrom, hj, ne_eq, not_true_eq_false, if_false]
    exact ih (j + 1) (fun s h1 h2 => h s (by omega) (by omega))

/-- The return loop pops the occupied slot of lowest index. -/
theorem popFrom_first (e : Emulator) (k j i : Nat) (hji : j ≤ i) (hik : i < j + k)
    (hbelow : ∀ s, j ≤ s → s < i → e.stack s = 0xFFFF) (hi : e.stack i ≠ 0xFFFF) :
    popFrom e k j =
      { e with PC := e.stack i, stack := Function.update e.stack i 0xFFFF } := by
  induction k generalizing j with
  | zero => omega
  | succ k ih =>
    by_cases hj : j = i
    · subst hj
      simp only [popFrom, if_pos hi]
    · have hjs : e.stack j = 0xFFFF := hbelow j (Nat.le_refl j) (by omega)
      simp only [popFrom, hjs, ne_eq, not_true_eq_false, if_false]
      exact ih (j + 1) (by omega) (by omega) (fun s h1 h2 => hbelow s (by omega) h2)

/-- A call followed by a return gives back the state before the call, whichever
slot `fss` picks on the empty stack. -/
theorem call_return_any_slot (fss : Emulator → Int) (rnd : Nat → Nat) (e : Emulator)
    (NNN i : Nat) (hN : NNN < 4096) (hi : i < STACKSIZE) (hfss : fss e = (i : Int))
    (hempty : ∀ s, s < STACKSIZE → e.stack s = 0xFFFF) (hp : e.PC ≠ 0xFFFF) :
    exec fss rnd e (0x2000 + NNN) =
        .ret 0 { e with stack := Function.update e.stack i e.PC, PC := NNN } ∧
    exec fss rnd { e with stack := Function.update e.stack i e.PC, PC := NNN } 0x00EE =
        .ret 0 e := by
  constructor
  · rw [exec_call fss rnd e hN, hfss]
    simp [hi]
  · rw [exec_return]
    have hpop := popFrom_first
      { e with stack := Function.update e.stack i e.PC, PC := NNN } STACKSIZE 0 i
      (Nat.zero_le i) (by omega)
      (fun s _ hs => by
        show Function.update e.stack i e.PC s = 0xFFFF
        rw [Function.update_noteq (by omega)]
        exact hempty s (by omega))
      (by show Function.update e.stack i e.PC i ≠ 0xFFFF
          rw [Function.update_same]; exact hp)
    rw [hpop]
    have hs : Function.update (Function.update e.stack i e.PC) i 0xFFFF = e.stack := by
      rw [Function.update_idem, ← hempty i hi, Function.update_eq_self]
    simp [hs]

theorem findstackspace_empty (e : Emulator)
    (hempty : ∀ s, s < STACKSIZE → e.stack s = 0xFFFF) : findstackspace e = 15 := by
  simp [findstackspace, findstackspaceBelow, hempty 15 (by decide)]

/-- C6: on a state with an empty call stack and PC = p other than 0xFFFF,
2NNN stores p in the slot `findstackspace` picks and sets PC = NNN, and 00EE
right after sets PC back to p and leaves all 16 slots empty: it gives back the
state before the call. -/
theorem call_then_return_restores (rnd : Nat → Nat) (e : Emulator) (NNN : Nat)
    (hN : NNN < 4096) (hempty : ∀ s, s < STACKSIZE → e.stack s = 0xFFFF)
    (hp : e.PC ≠ 0xFFFF) :
    ∃ (i : Nat) (e1 e2 : Emulator), findstackspace e = (i : Int) ∧ i < STACKSIZE ∧
      exec findstackspace rnd e (0x2000 + NNN) = .ret 0 e1 ∧
      e1.stack i = e.PC ∧ e1.PC = NNN ∧
      exec findstackspace rnd e1 0x00EE = .ret 0 e2 ∧
      e2.PC = e.PC ∧ (∀ s, s < STACKSIZE → e2.stack s = 0xFFFF) ∧ e2 = e := by
  have h15 := findstackspace_empty e hempty
  obtain ⟨hc, hr⟩ := call_return_any_slot findstackspace rnd e NNN 15 hN (by decide)
    h15 hempty hp
  exact ⟨15, _, e, h15, by decide, hc, by simp, rfl, hr, rfl, hempty, rfl⟩

theorem blank_stack_empty : ∀ s, s < STACKSIZE → blank.stack s = 0xFFFF :=
  fun _ _ => rfl

/-- The instance of C6 at `blank` (PC = 0x200) with NNN = 0x345. -/
theorem call_then_return_restores_witness :
    ∃ (i : Nat) (e1 e2 : Emulator), findstackspace blank = (i : Int) ∧ i < STACKSIZE ∧
      exec findstackspace (fun _ => 0) blank (0x2000 + 0x345) = .ret 0 e1 ∧
      e1.stack i = blank.PC ∧ e1.PC = 0x345 ∧
      exec findstackspace (fun _ => 0) e1 0x00EE = .ret 0 e2 ∧
      e2.PC = blank.PC ∧ (∀ s, s < STACKSIZE → e2.stack s = 0xFFFF) ∧ e2 = blank :=
  call_then_return_restores (fun _ => 0) blank 0x345 (by decide) blank_stack_empty
    (by decide)

/-- C7: from an empty call stack and PC = p other than 0xFFFF, the sequence
2AAA, 2BBB, 00EE, 00EE gives PC = A after the first return and PC = p after the
second: the two calls return last-in first-out. -/
theorem nested_calls_return_lifo (rnd : Nat → Nat) (e : Emulator) (A B : Nat)
    (hA : A < 4096) (hB : B < 4096) (hempty : ∀ s, s < STACKSIZE → e.stack s = 0xFFFF)
    (hp : e.PC ≠ 0xFFFF) :
    ∃ e1 e2 e3 e4 : Emulator,
      exec findstackspace rnd e (0x2000 + A) = .ret 0 e1 ∧
      exec findstackspace rnd e1 (0x2000 + B) = .ret 0 e2 ∧
      exec findstackspace rnd e2 0x00EE = .ret 0 e3 ∧ e3.PC = A ∧
      exec findstackspace rnd e3 0x00EE = .ret 0 e4 ∧ e4.PC = e.PC := by
  have h15 := findstackspace_empty e hempty
  have h1 : exec findstackspace rnd e (0x2000 + A) =
      .ret 0 { e with stack := Function.update e.stack 15 e.PC, PC := A } := by
    rw [exec_call findstackspace rnd e hA, h15]; simp
  have h14 : findstackspace { e with stack := Function.update e.stack 15 e.PC, PC := A }
      = 14 := by
    simp [findstackspace, findstackspaceBelow, hp, hempty 14 (by decide)]
  have h2 : exec findstackspace rnd
      { e with stack := Function.update e.stack 15 e.PC, PC := A } (0x2000 + B) =
      .ret 0 { e with
        stack := Function.update (Function.update e.stack 15 e.PC) 14 A, PC := B } := by
    rw [exec_call findstackspace rnd _ hB, h14]; simp
  have hA1 : A ≠ 0xFFFF := by omega
  have h3 : exec findstackspace rnd
      { e with stack := Function.update (Function.update e.stack 15 e.PC) 14 A, PC := B }
      0x00EE =
      .ret 0 { e with stack := Function.update e.stack 15 e.PC, PC := A } := by
    rw [exec_return]
    have hpop := popFrom_first
      { e with stack := Function.update (Function.update e.stack 15 e.PC) 14 A, PC := B }
      STACKSIZE 0 14 (by decide) (by decide)
      (fun s _ hs => by
        show Function.update (Function.update e.stack 15 e.PC) 14 A s = 0xFFFF
        rw [Function.update_noteq (by omega), Function.update_noteq (by omega)]
        exact hempty s (Nat.lt_trans hs (by decide)))
      (by show Function.update (Function.update e.stack 15 e.PC) 14 A 14 ≠ 0xFFFF
          rw [Function.update_same]; exact hA1)
    rw [hpop]
    have hs : Function.update (Function.update (Function.update e.stack 15 e.PC) 14 A)
        14 0xFFFF = Function.update e.stack 15 e.PC := by
      rw [Function.update_idem]
      apply Function.update_eq_self_iff.mpr
      rw [Function.update_noteq (by decide)]
      exact (hempty 14 (by decide)).symm
    simp [hs]
  obtain ⟨-, h4⟩ := call_return_any_slot findstackspace rnd e A 15 hA (by decide)
    h15 hempty hp
  exact ⟨_, _, _, e, h1, h2, h3, rfl, h4, rfl⟩

/-- The instance of C7 at `blank` (PC = 0x200) with A = 0x345 and B = 0x456. -/
theorem nested_calls_return_lifo_witness :
    ∃ e1 e2 e3 e4 : Emulator,
      exec findstackspace (fun _ => 0) blank (0x2000 + 0x345) = .ret 0 e1 ∧
      exec findstackspace (fun _ => 0) e1 (0x2000 + 0x456) = .ret 0 e2 ∧
      exec findstackspace (fun _ => 0) e2 0x00EE = .ret 0 e3 ∧ e3.PC = 0x345 ∧
      exec findstackspace (fun _ => 0) e3 0x00EE = .ret 0 e4 ∧ e4.PC = blank.PC :=
  nested_calls_return_lifo (fun _ => 0) blank 0x345 0x456 (by decide) (by decide)
    blank_stack_empty (by decide)

/-- The order of returns rests on the slot `findstackspace` picks: were it the
free slot of lowest index, the sequence 2345, 2456, 00EE, 00EE from `blank`
(PC = 0x200) would give PC = 0x200 after the first return and PC = 0x345 after
the second. -/
theorem lowest_free_slot_returns_fifo :
    ∃ e1 e2 e3 e4 : Emulator,
      exec (fun e => lowestFreeFrom e STACKSIZE 0) (fun _ => 0) blank 0x2345 = .ret 0 e1 ∧
      exec (fun e => lowestFreeFrom e STACKSIZE 0) (fun _ => 0) e1 0x2456 = .ret 0 e2 ∧
      exec (fun e => lowestFreeFrom e STACKSIZE 0) (fun _ => 0) e2 0x00EE = .ret 0 e3 ∧
      e3.PC = 0x200 ∧
      exec (fun e => lowestFreeFrom e STACKSIZE 0) (fun _ => 0) e3 0x00EE = .ret 0 e4 ∧
      e4.PC = 0x345 :=
  ⟨_, _, _, _, rfl, rfl, rfl, rfl, rfl, rfl⟩

/-- The word `fetch` reads at `i` and what it does with the result of `exec`. -/
theorem fetch_eq (fss : Emulator → Int) (rnd : Nat → Nat) (e : Emulator) (i w : Nat)
    (hi : i + 1 < MEMSIZE) (hw : ((e.membuf i <<< 8) ||| e.membuf (i + 1)) % 65536 = w) :
    fetch fss rnd e i =
      match exec fss rnd (skip e) w with
      | .ret r e2 => if r ≠ 0 then .ret (-1) e2 else .ret 0 e2
      | o => o := by
  simp only [fetch, if_pos hi, hw]

/-- C8 as the code has it: on a state with an empty call stack 00EE is no
error. `exec` returns 0 and leaves the state as it was, and `fetch` of the word
0x00EE returns 0 with only the program counter advanced. -/
theorem return_on_empty_stack_returns_zero (fss : Emulator → Int) (rnd : Nat → Nat)
    (e : Emulator) (hempty : ∀ s, s < STACKSIZE → e.stack s = 0xFFFF) :
    exec fss rnd e 0x00EE = .ret 0 e ∧
    ∀ i, i + 1 < MEMSIZE → e.membuf i = 0x00 → e.membuf (i + 1) = 0xEE →
      fetch fss rnd e i = .ret 0 (skip e) := by
  have hx : ∀ e1 : Emulator, (∀ s, s < STACKSIZE → e1.stack s = 0xFFFF) →
      exec fss rnd e1 0x00EE = .ret 0 e1 := by
    intro e1 h1
    rw [exec_return, popFrom_empty e1 STACKSIZE 0 (fun s _ hs => h1 s (by omega))]
  refine ⟨hx e hempty, ?_⟩
  intro i hi h0 h1
  rw [fetch_eq fss rnd e i 0x00EE hi (by rw [h0, h1]; rfl), hx (skip e) hempty]
  simp

/-- The instance of the amended C8 at `returnOnly`, with `fetch` at 0x200. -/
theorem return_on_empty_stack_returns_zero_witness :
    exec findstackspace (fun _ => 0) returnOnly 0x00EE = .ret 0 returnOnly ∧
    fetch findstackspace (fun _ => 0) returnOnly 0x200 = .ret 0 (skip returnOnly) :=
  have h := return_on_empty_stack_returns_zero findstackspace (fun _ => 0) returnOnly
    (fun _ _ => rfl)
  ⟨h.1, h.2 0x200 (by decide) rfl rfl⟩

/-- C8 fails at `returnOnly`: its call stack is empty, `exec` of 00EE returns 0,
not a non-zero result, and `fetch` returns 0, not -1. -/
theorem return_on_empty_stack_counterexample :
    (∀ s, s < STACKSIZE → returnOnly.stack s = 0xFFFF) ∧
    exec findstackspace (fun _ => 0) returnOnly 0x00EE = .ret 0 returnOnly ∧
    fetch findstackspace (fun _ => 0) returnOnly 0x200 = .ret 0 (skip returnOnly) ∧
    ¬ (∃ r e1, r ≠ 0 ∧ exec findstackspace (fun _ => 0) returnOnly 0x00EE = .ret r e1) := by
  refine ⟨fun _ _ => rfl, rfl, rfl, ?_⟩
  rintro ⟨r, e1, hr, h⟩
  have h0 : exec findstackspace (fun _ => 0) returnOnly 0x00EE = .ret 0 returnOnly := rfl
  rw [h0] at h
  injection h with h1 _
  exact hr h1.symm

/-! ## Unrecognized sub-opcodes -/

theorem parse_8NNN_unknown (e : Emulator) {X Y N : Nat} (hX : X < 16) (hY : Y < 16)
    (hN : N ∈ [0x8, 0x9, 0xA, 0xB, 0xC, 0xD, 0xF]) :
    parse_8NNN e (word 8 X Y N) = .ret (-1) e := by
  have h8 : (8 : Nat) < 16 := by decide
  simp only [List.mem_cons, List.mem_singleton, List.mem_nil_iff, or_false] at hN
  have hN16 : N < 16 := by omega
  simp only [parse_8NNN, word_fn h8 hX hY hN16, word_pn h8 hX hY hN16, if_true]
  rcases hN with h | h | h | h | h | h | h <;> subst h <;> rfl

theorem parse_FNNN_unknown (e : Emulator) {X Y N : Nat} (hX : X < 16) (hY : Y < 16)
    (hN : N < 16)
    (hlow : 16 * Y + N ∉ [0x07, 0x0A, 0x15, 0x18, 0x1E, 0x29, 0x33, 0x55, 0x65]) :
    parse_FNNN e (word 0xF X Y N) = .ret (-1) e := by
  have hF : (0xF : Nat) < 16 := by decide
  simp only [List.mem_cons, List.mem_singleton, List.mem_nil_iff, or_false, not_or] at hlow
  simp only [parse_FNNN, word_fn hF hX hY hN, word_tn hF hX hY hN, word_pn hF hX hY hN,
    if_true]
  iterate 9 rw [if_neg (by omega)]

/-- The word `fetch` builds from the bytes `16 f + x` and `16 y + n`. -/
theorem fetch_word {f x y n : Nat} (hy : y < 16) (hn : n < 16) (hf : f < 16) (hx : x < 16) :
    (((16 * f + x) <<< 8) ||| (16 * y + n)) % 65536 = word f x y n := by
  have hlow : 16 * y + n < 2 ^ 8 := by norm_num; omega
  rw [Nat.shiftLeft_eq, Nat.mul_comm, ← Nat.mul_add_lt_is_or hlow]
  unfold word
  omega

/-- C9 as the code has it: for 8XYN with N in {8, 9, A, B, C, D, F} and for
FXNN with a low byte other than 07, 0A, 15, 18, 1E, 29, 33, 55, 65 the family
handler returns -1 and changes nothing; `exec` then fails its assertion on the
handler result instead of returning, with the machine state as on entry, and so
does `fetch` (which has advanced the program counter by 2). -/
theorem unknown_subopcode_fails_assertion (fss : Emulator → Int) (rnd : Nat → Nat)
    (e : Emulator) (X Y N X2 Y2 N2 : Nat) (hX : X < 16) (hY : Y < 16)
    (hN : N ∈ [0x8, 0x9, 0xA, 0xB, 0xC, 0xD, 0xF])
    (hX2 : X2 < 16) (hY2 : Y2 < 16) (hN2 : N2 < 16)
    (hlow : 16 * Y2 + N2 ∉ [0x07, 0x0A, 0x15, 0x18, 0x1E, 0x29, 0x33, 0x55, 0x65]) :
    (parse_8NNN e (word 8 X Y N) = .ret (-1) e ∧
      exec fss rnd e (word 8 X Y N) = .abort e ∧
      ∀ i, i + 1 < MEMSIZE → e.membuf i = 16 * 8 + X → e.membuf (i + 1) = 16 * Y + N →
        fetch fss rnd e i = .abort (skip e)) ∧
    (parse_FNNN e (word 0xF X2 Y2 N2) = .ret (-1) e ∧
      exec fss rnd e (word 0xF X2 Y2 N2) = .abort e ∧
      ∀ i, i + 1 < MEMSIZE → e.membuf i = 16 * 0xF + X2 → e.membuf (i + 1) = 16 * Y2 + N2 →
        fetch fss rnd e i = .abort (skip e)) := by
  have h8 : (8 : Nat) < 16 := by decide
  have hF : (0xF : Nat) < 16 := by decide
  have hN16 : N < 16 := by
    simp only [List.mem_cons, List.mem_singleton, List.mem_nil_iff, or_false] at hN
    omega
  have hx8 : ∀ e1 : Emulator, exec fss rnd e1 (word 8 X Y N) = .abort e1 := by
    intro e1
    simp only [exec, word_fn h8 hX hY hN16, parse_8NNN_unknown e1 hX hY hN]
    simp
  have hxF : ∀ e1 : Emulator, exec fss rnd e1 (word 0xF X2 Y2 N2) = .abort e1 := by
    intro e1
    simp only [exec, word_fn hF hX2 hY2 hN2, parse_FNNN_unknown e1 hX2 hY2 hN2 hlow]
    simp
  refine ⟨⟨parse_8NNN_unknown e hX hY hN, hx8 e, ?_⟩,
    ⟨parse_FNNN_unknown e hX2 hY2 hN2 hlow, hxF e, ?_⟩⟩
  · intro i hi h0 h1
    rw [fetch_eq fss rnd e i (word 8 X Y N) hi
      (by rw [h0, h1]; exact fetch_word hY hN16 h8 hX), hx8 (skip e)]
  · intro i hi h0 h1
    rw [fetch_eq fss rnd e i (word 0xF X2 Y2 N2) hi
      (by rw [h0, h1]; exact fetch_word hY2 hN2 hF hX2), hxF (skip e)]

/-- The instance of the amended C9 at `unknownOnly` for the words 0x8008 and
0xF000, with `fetch` of 0x8008 at 0x200. -/
theorem unknown_subopcode_fails_assertion_witness :
    (parse_8NNN unknownOnly (word 8 0 0 8) = .ret (-1) unknownOnly ∧
      exec findstackspace (fun _ => 0) unknownOnly (word 8 0 0 8) = .abort unknownOnly ∧
      fetch findstackspace (fun _ => 0) unknownOnly 0x200 = .abort (skip unknownOnly)) ∧
    (parse_FNNN unknownOnly (word 0xF 0 0 0) = .ret (-1) unknownOnly ∧
      exec findstackspace (fun _ => 0) unknownOnly (word 0xF 0 0 0) = .abort unknownOnly) :=
  have h := unknown_subopcode_fails_assertion findstackspace (fun _ => 0) unknownOnly
    0 0 8 0 0 0 (by decide) (by decide) (by decide) (by decide) (by decide) (by decide)
    (by decide)
  ⟨⟨h.1.1, h.1.2.1, h.1.2.2 0x200 (by decide) rfl rfl⟩, ⟨h.2.1, h.2.2.1⟩⟩

/-- C9 fails at `unknownOnly`: for the word 0x8008 the handler returns -1 and
`exec` stops in its assertion, so neither `exec` nor `fetch` returns a result;
the same holds for the word 0xF000. -/
theorem unknown_subopcode_counterexample :
    parse_8NNN unknownOnly 0x8008 = .ret (-1) unknownOnly ∧
    exec findstackspace (fun _ => 0) unknownOnly 0x8008 = .abort unknownOnly ∧
    fetch findstackspace (fun _ => 0) unknownOnly 0x200 = .abort (skip unknownOnly) ∧
    exec findstackspace (fun _ => 0) unknownOnly 0xF000 = .abort unknownOnly ∧
    ¬ (∃ r e1, exec findstackspace (fun _ => 0) unknownOnly 0x8008 = .ret r e1) := by
  refine ⟨rfl, rfl, rfl, rfl, ?_⟩
  rintro ⟨r, e1, h⟩
  have h0 : exec findstackspace (fun _ => 0) unknownOnly 0x8008 = .abort unknownOnly := rfl
  rw [h0] at h
  cases h

/-! ## Drawing a sprite -/

theorem spriteBit_zero_or_one (e : Emulator) (i j : Nat) :
    spriteBit e i j = 0 ∨ spriteBit e i j = 1 := by
  have h : spriteBit e i j = (e.membuf (e.I + i) >>> (7 - j)) % 2 :=
    Nat.and_pow_two_sub_one_eq_mod _ 1
  omega

theorem DrawInv.congr {e s : Emulator} {x y : Nat} {done done2 : Nat → Nat → Prop}
    (h : ∀ i j, done i j ↔ done2 i j) (hinv : DrawInv e x y done s) :
    DrawInv e x y done2 s := by
  have hd : done = done2 := funext fun i => funext fun j => propext (h i j)
  rw [← hd]; exact hinv

theorem setCell_display (s : Emulator) (r c v r2 c2 : Nat) :
    (setCell s r c v).display r2 c2 = if r2 = r ∧ c2 = c then v else s.display r2 c2 := by
  unfold setCell
  by_cases hr : r2 = r
  · subst hr
    by_cases hc : c2 = c
    · subst hc; simp
    · simp [Function.update_noteq hc, hc]
  · simp [Function.update_noteq hr, hr]

/-- One pass through the body of the inner loop of DXYN keeps the invariant. -/
theorem drawPixel_step {e s : Emulator} {x y : Nat} {done : Nat → Nat → Prop} (i j : Nat)
    (hinv : DrawInv e x y done s) (hnew : ¬ done i j) (hI : e.I + i < MEMSIZE)
    (hy : y + i < DISPLAY_HEIGHT) (hx : x + j < DISPLAY_WIDTH) :
    ∃ s2, drawPixel x y i j s = some s2 ∧
      DrawInv e x y (fun i2 j2 => done i2 j2 ∨ (i2 = i ∧ j2 = j)) s2 := by
  have hcell : s.display (y + i) (x + j) = e.display (y + i) (x + j) :=
    hinv.cell_other _ _ (by
      rintro ⟨i2, j2, hd, h1, h2⟩
      have hi : i2 = i := by omega
      have hj : j2 = j := by omega
      subst hi; subst hj; exact hnew hd)
  have hbit : spriteBit e i j = (e.membuf (e.I + i) >>> (7 - j)) &&& 1 := rfl
  have hfar : ∀ i2 j2, done i2 j2 → ¬ (y + i2 = y + i ∧ x + j2 = x + j) := by
    rintro i2 j2 hd ⟨h1, h2⟩
    have hi : i2 = i := by omega
    have hj : j2 = j := by omega
    subst hi; subst hj; exact hnew hd
  rcases spriteBit_zero_or_one e i j with hb | hb
  · have hb2 : ¬ ((e.membuf (e.I + i) >>> (7 - j)) &&& 1 = 1) := by omega
    refine ⟨s, ?_, ?_⟩
    · simp only [drawPixel, hinv.I_eq, hinv.membuf_eq, if_pos hI, if_neg hb2]
    · refine { hinv with flag_set := ?_, flag_clear := ?_, cell_done := ?_, cell_other := ?_ }
      · rintro ⟨i2, j2, hd | ⟨rfl, rfl⟩, h1, h2⟩
        · exact hinv.flag_set ⟨i2, j2, hd, h1, h2⟩
        · omega
      · intro hno
        exact hinv.flag_clear fun ⟨i2, j2, hd, h1, h2⟩ => hno ⟨i2, j2, Or.inl hd, h1, h2⟩
      · rintro i2 j2 (hd | ⟨rfl, rfl⟩)
        · exact hinv.cell_done i2 j2 hd
        · rw [hcell, hb, Nat.xor_zero]
      · intro r c hno
        exact hinv.cell_other r c fun ⟨i2, j2, hd, h1, h2⟩ => hno ⟨i2, j2, Or.inl hd, h1, h2⟩
  · have hb2 : (e.membuf (e.I + i) >>> (7 - j)) &&& 1 = 1 := by omega
    have hyx : y + i < DISPLAY_HEIGHT ∧ x + j < DISPLAY_WIDTH := ⟨hy, hx⟩
    by_cases hc : e.display (y + i) (x + j) = 1
    · have hc2 : s.display (y + i) (x + j) = 1 := by rw [hcell]; exact hc
      refine ⟨setCell (setReg s 0xF 1) (y + i) (x + j) (s.display (y + i) (x + j) ^^^ 1), ?_, ?_⟩
      · simp only [drawPixel, hinv.I_eq, hinv.membuf_eq, if_pos hI, hb2, if_pos hyx, if_pos hc2]
        rfl
      · refine { membuf_eq := hinv.membuf_eq, I_eq := hinv.I_eq, PC_eq := hinv.PC_eq,
                 stack_eq := hinv.stack_eq, delay_eq := hinv.delay_eq,
                 sound_eq := hinv.sound_eq, keys_eq := hinv.keys_eq,
                 regs_eq := ?_, flag_set := ?_, flag_clear := ?_, cell_done := ?_,
                 cell_other := ?_ }
        · intro r hr
          show (setReg s 0xF 1).regs r = e.regs r
          rw [setReg_regs_ne _ _ hr]; exact hinv.regs_eq r hr
        · intro _
          show (setReg s 0xF 1).regs 0xF = 1
          exact setReg_regs_same _ _ _
        · intro hno
          exact absurd ⟨i, j, Or.inr ⟨rfl, rfl⟩, hb, hc⟩ hno
        · rintro i2 j2 (hd | ⟨rfl, rfl⟩)
          · rw [setCell_display, if_neg (hfar i2 j2 hd)]
            exact hinv.cell_done i2 j2 hd
          · rw [setCell_display, if_pos ⟨rfl, rfl⟩, hb]
            show s.display (y + i2) (x + j2) ^^^ 1 = _
            rw [hcell]
        · intro r c hno
          have hne : ¬ (r = y + i ∧ c = x + j) :=
            fun h => hno ⟨i, j, Or.inr ⟨rfl, rfl⟩, h.1, h.2⟩
          rw [setCell_display, if_neg hne]
          exact hinv.cell_other r c
            fun ⟨i2, j2, hd, h1, h2⟩ => hno ⟨i2, j2, Or.inl hd, h1, h2⟩
    · have hc2 : ¬ s.display (y + i) (x + j) = 1 := by rw [hcell]; exact hc
      refine ⟨setCell s (y + i) (x + j) (s.display (y + i) (x + j) ^^^ 1), ?_, ?_⟩
      · simp only [drawPixel, hinv.I_eq, hinv.membuf_eq, if_pos hI, hb2, if_pos hyx, if_neg hc2]
        rfl
      · refine { membuf_eq := hinv.membuf_eq, I_eq := hinv.I_eq, PC_eq := hinv.PC_eq,
                 stack_eq := hinv.stack_eq, delay_eq := hinv.delay_eq,
                 sound_eq := hinv.sound_eq, keys_eq := hinv.keys_eq,
                 regs_eq := hinv.regs_eq, flag_set := ?_, flag_clear := ?_, cell_done := ?_,
                 cell_other := ?_ }
        · rintro ⟨i2, j2, hd | ⟨rfl, rfl⟩, h1, h2⟩
          · exact hinv.flag_set ⟨i2, j2, hd, h1, h2⟩
          · exact absurd h2 hc
        · intro hno
          exact hinv.flag_clear
            fun ⟨i2, j2, hd, h1, h2⟩ => hno ⟨i2, j2, Or.inl hd, h1, h2⟩
        · rintro i2 j2 (hd | ⟨rfl, rfl⟩)
          · rw [setCell_display, if_neg (hfar i2 j2 hd)]
            exact hinv.cell_done i2 j2 hd
          · rw [setCell_display, if_pos ⟨rfl, rfl⟩, hb, hcell]
        · intro r c hno
          have hne : ¬ (r = y + i ∧ c = x + j) :=
            fun h => hno ⟨i, j, Or.inr ⟨rfl, rfl⟩, h.1, h.2⟩
          rw [setCell_display, if_neg hne]
          exact hinv.cell_other r c
            fun ⟨i2, j2, hd, h1, h2⟩ => hno ⟨i2, j2, Or.inl hd, h1, h2⟩

/-- The inner loop of DXYN keeps the invariant while the row fits the display. -/
theorem drawRow_inv {e s : Emulator} {x y : Nat} {done : Nat → Nat → Prop} (i : Nat)
    (hinv : DrawInv e x y done s) (hnew : ∀ j, ¬ done i j) (hI : e.I + i < MEMSIZE)
    (hy : y + i < DISPLAY_HEIGHT) (hx : x + 8 ≤ DISPLAY_WIDTH) (m : Nat) (hm : m ≤ 8) :
    ∃ s2, forUpTo m (fun j s1 => s1.bind (drawPixel x y i j)) (some s) = some s2 ∧
      DrawInv e x y (fun i2 j2 => done i2 j2 ∨ (i2 = i ∧ j2 < m)) s2 := by
  induction m with
  | zero =>
    exact ⟨s, rfl, hinv.congr fun i2 j2 => ⟨Or.inl, fun h => h.elim id (by omega)⟩⟩
  | succ m ih =>
    obtain ⟨s2, hs2, hinv2⟩ := ih (by omega)
    obtain ⟨s3, hs3, hinv3⟩ := drawPixel_step i m hinv2
      (by rintro (h | ⟨_, h⟩)
          · exact hnew m h
          · omega)
      hI hy (by omega)
    refine ⟨s3, ?_, hinv3.congr fun i2 j2 => ?_⟩
    · show (forUpTo m (fun j s1 => s1.bind (drawPixel x y i j)) (some s)).bind
        (drawPixel x y i m) = some s3
      rw [hs2]; exact hs3
    · constructor
      · rintro ((h | ⟨h1, h2⟩) | ⟨h1, h2⟩)
        · exact Or.inl h
        · exact Or.inr ⟨h1, by omega⟩
        · exact Or.inr ⟨h1, by omega⟩
      · rintro (h | ⟨h1, h2⟩)
        · exact Or.inl (Or.inl h)
        · by_cases hj : j2 = m
          · exact Or.inr ⟨h1, hj⟩
          · exact Or.inl (Or.inr ⟨h1, by omega⟩)

/-- The outer loop of DXYN keeps the invariant while the sprite fits the display
and the memory. -/
theorem drawRows_inv {e s : Emulator} {x y : Nat} (N : Nat)
    (hinv : DrawInv e x y (fun _ _ => False) s) (hI : e.I + N ≤ MEMSIZE)
    (hy : y + N ≤ DISPLAY_HEIGHT) (hx : x + 8 ≤ DISPLAY_WIDTH) (k : Nat) (hk : k ≤ N) :
    ∃ s2, forUpTo k (fun i s1 => drawRow x y i s1) (some s) = some s2 ∧
      DrawInv e x y (fun i2 j2 => i2 < k ∧ j2 < 8) s2 := by
  induction k with
  | zero =>
    exact ⟨s, rfl, hinv.congr fun i2 j2 => ⟨False.elim, fun h => by omega⟩⟩
  | succ k ih =>
    obtain ⟨s2, hs2, hinv2⟩ := ih (by omega)
    obtain ⟨s3, hs3, hinv3⟩ := drawRow_inv k hinv2 (fun j h => by omega)
      (by omega) (by omega) hx 8 (Nat.le_refl 8)
    refine ⟨s3, ?_, hinv3.congr fun i2 j2 => ?_⟩
    · show drawRow x y k (forUpTo k (fun i s1 => drawRow x y i s1) (some s)) = some s3
      rw [hs2]; exact hs3
    · constructor
      · rintro (⟨h1, h2⟩ | ⟨h1, h2⟩)
        · exact ⟨by omega, h2⟩
        · exact ⟨by omega, h2⟩
      · rintro ⟨h1, h2⟩
        by_cases hi : i2 = k
        · exact Or.inr ⟨hi, h2⟩
        · exact Or.inl ⟨by omega, h2⟩

/-- C10: a DXYN whose sprite fits the display and the memory (x + 8 <= 64,
y + N <= 32, I + N <= 4096 for x = VX mod 64, y = VY mod 32) returns 0 and
leaves each cell display[y+i][x+j], i < N, j < 8, at its old value XOR bit
7 - j of memory[I+i], every other display cell, the memory and I as they were,
and VF = 1 when some sprite bit 1 met a cell that was 1, VF = 0 otherwise. -/
theorem draw_xors_sprite_into_display (fss : Emulator → Int) (rnd : Nat → Nat)
    (e : Emulator) (X Y N : Nat) (hX : X < 16) (hY : Y < 16) (hN : N < 16)
    (hx : e.regs X % 64 + 8 ≤ 64) (hy : e.regs Y % 32 + N ≤ 32) (hI : e.I + N ≤ 4096) :
    ∃ e1, exec fss rnd e (word 0xD X Y N) = .ret 0 e1 ∧
      (∀ i j, i < N → j < 8 →
        e1.display (e.regs Y % 32 + i) (e.regs X % 64 + j) =
          e.display (e.regs Y % 32 + i) (e.regs X % 64 + j) ^^^
            ((e.membuf (e.I + i) >>> (7 - j)) &&& 1)) ∧
      (∀ r c, ¬ (∃ i j, i < N ∧ j < 8 ∧ r = e.regs Y % 32 + i ∧ c = e.regs X % 64 + j) →
        e1.display r c = e.display r c) ∧
      e1.membuf = e.membuf ∧ e1.I = e.I ∧
      ((∃ i j, i < N ∧ j < 8 ∧ (e.membuf (e.I + i) >>> (7 - j)) &&& 1 = 1 ∧
          e.display (e.regs Y % 32 + i) (e.regs X % 64 + j) = 1) → e1.regs 0xF = 1) ∧
      (¬ (∃ i j, i < N ∧ j < 8 ∧ (e.membuf (e.I + i) >>> (7 - j)) &&& 1 = 1 ∧
          e.display (e.regs Y % 32 + i) (e.regs X % 64 + j) = 1) → e1.regs 0xF = 0) := by
  have hD : (0xD : Nat) < 16 := by decide
  have hx256 : e.regs X % 64 % 256 = e.regs X % 64 := Nat.mod_eq_of_lt (by omega)
  have hy256 : e.regs Y % 32 % 256 = e.regs Y % 32 := Nat.mod_eq_of_lt (by omega)
  have hinv0 : DrawInv e (e.regs X % 64) (e.regs Y % 32) (fun _ _ => False)
      (setReg e 0xF 0) :=
    { membuf_eq := rfl, I_eq := rfl, PC_eq := rfl, stack_eq := rfl, delay_eq := rfl,
      sound_eq := rfl, keys_eq := rfl,
      regs_eq := fun r hr => setReg_regs_ne e 0 hr,
      flag_set := fun ⟨_, _, h, _⟩ => h.elim,
      flag_clear := fun _ => setReg_regs_same e 0xF 0,
      cell_done := fun _ _ h => h.elim,
      cell_other := fun _ _ _ => rfl }
  obtain ⟨s2, hs2, hinv⟩ := drawRows_inv N hinv0 hI hy hx N (Nat.le_refl N)
  refine ⟨s2, ?_, ?_, ?_, hinv.membuf_eq, hinv.I_eq, ?_, ?_⟩
  · simp only [exec, word_fn hD hX hY hN, word_sn hD hX hY hN, word_tn hD hX hY hN,
      word_pn hD hX hY hN, hx256, hy256, hs2]
  · intro i j hi hj
    exact hinv.cell_done i j ⟨hi, hj⟩
  · intro r c hno
    exact hinv.cell_other r c fun ⟨i, j, ⟨h1, h2⟩, h3, h4⟩ => hno ⟨i, j, h1, h2, h3, h4⟩
  · rintro ⟨i, j, h1, h2, h3, h4⟩
    exact hinv.flag_set ⟨i, j, ⟨h1, h2⟩, h3, h4⟩
  · intro hno
    exact hinv.flag_clear fun ⟨i, j, ⟨h1, h2⟩, h3, h4⟩ => hno ⟨i, j, h1, h2, h3, h4⟩

/-- The instance of C10 at `drawSample` for the word D122: x = 200 mod 64 = 8,
y = 100 mod 32 = 4, two sprite rows at I = 0x300. -/
theorem draw_xors_sprite_into_display_witness :
    ∃ e1, exec findstackspace (fun _ => 0) drawSample (word 0xD 1 2 2) = .ret 0 e1 ∧
      (∀ i j, i < 2 → j < 8 →
        e1.display (drawSample.regs 2 % 32 + i) (drawSample.regs 1 % 64 + j) =
          drawSample.display (drawSample.regs 2 % 32 + i) (drawSample.regs 1 % 64 + j) ^^^
            ((drawSample.membuf (drawSample.I + i) >>> (7 - j)) &&& 1)) ∧
      (∀ r c, ¬ (∃ i j, i < 2 ∧ j < 8 ∧ r = drawSample.regs 2 % 32 + i ∧
          c = drawSample.regs 1 % 64 + j) →
        e1.display r c = drawSample.display r c) ∧
      e1.membuf = drawSample.membuf ∧ e1.I = drawSample.I ∧
      ((∃ i j, i < 2 ∧ j < 8 ∧ (drawSample.membuf (drawSample.I + i) >>> (7 - j)) &&& 1 = 1 ∧
          drawSample.display (drawSample.regs 2 % 32 + i) (drawSample.regs 1 % 64 + j) = 1) →
        e1.regs 0xF = 1) ∧
      (¬ (∃ i j, i < 2 ∧ j < 8 ∧ (drawSample.membuf (drawSample.I + i) >>> (7 - j)) &&& 1 = 1 ∧
          drawSample.display (drawSample.regs 2 % 32 + i) (drawSample.regs 1 % 64 + j) = 1) →
        e1.regs 0xF = 0) :=
  draw_xors_sprite_into_display findstackspace (fun _ => 0) drawSample 1 2 2
    (by decide) (by decide) (by decide) (by decide) (by decide) (by decide)

/-- The body of the inner loop of DXYN indexes outside `display` when a set
sprite bit falls on a row or column past the edge: the indices `y + i` and
`x + j` are used as they are. -/
theorem drawPixel_past_edge (e : Emulator) (x y i j : Nat) (hI : e.I + i < MEMSIZE)
    (hbit : spriteBit e i j = 1)
    (hout : DISPLAY_HEIGHT ≤ y + i ∨ DISPLAY_WIDTH ≤ x + j) :
    drawPixel x y i j e = none := by
  have hb : (e.membuf (e.I + i) >>> (7 - j)) &&& 1 = 1 := hbit
  have hno : ¬ (y + i < DISPLAY_HEIGHT ∧ x + j < DISPLAY_WIDTH) := by omega
  simp only [drawPixel, if_pos hI, hb, if_true, if_neg hno]

/-- C11: a sprite that passes the edge is not wrapped in the display buffer. At
`edgeSample` the word D101 draws the row 0xFF at x = 60, y = 0 and the word
D022 draws two rows 0xFF at x = 0, y = 31: the first indexes column 64 of
row 0 and the second indexes row 32, both outside the 32 by 64 buffer, where
wrapping would toggle display[0][0..3] and display[0][0..7]. -/
theorem draw_past_edge_leaves_buffer :
    edgeSample.regs 1 % 64 = 60 ∧ edgeSample.regs 0 % 32 = 0 ∧
    drawPixel 60 0 0 4 edgeSample = none ∧
    exec findstackspace (fun _ => 0) edgeSample 0xD101 = .outOfBounds ∧
    edgeSample.regs 0 % 64 = 0 ∧ edgeSample.regs 2 % 32 = 31 ∧
    drawPixel 0 31 1 0 edgeSample = none ∧
    exec findstackspace (fun _ => 0) edgeSample 0xD022 = .outOfBounds :=
  ⟨rfl, rfl, rfl, rfl, rfl, rfl, rfl, rfl⟩

/-- The draw DXYN of a sprite that fits the display and the memory returns 0
in a state that satisfies the invariant for all `N` rows. -/
theorem exec_draw_inv (fss : Emulator → Int) (rnd : Nat → Nat)
    (e : Emulator) {X Y N : Nat} (hX : X < 16) (hY : Y < 16) (hN : N < 16)
    (hx : e.regs X % 64 + 8 ≤ 64) (hy : e.regs Y % 32 + N ≤ 32) (hI : e.I + N ≤ 4096) :
    ∃ e1, exec fss rnd e (word 0xD X Y N) = .ret 0 e1 ∧
      DrawInv e (e.regs X % 64) (e.regs Y % 32) (fun i j => i < N ∧ j < 8) e1 := by
  have hD : (0xD : Nat) < 16 := by decide
  have hx256 : e.regs X % 64 % 256 = e.regs X % 64 := Nat.mod_eq_of_lt (by omega)
  have hy256 : e.regs Y % 32 % 256 = e.regs Y % 32 := Nat.mod_eq_of_lt (by omega)
  have hinv0 : DrawInv e (e.regs X % 64) (e.regs Y % 32) (fun _ _ => False)
      (setReg e 0xF 0) :=
    { membuf_eq := rfl, I_eq := rfl, PC_eq := rfl, stack_eq := rfl, delay_eq := rfl,
      sound_eq := rfl, keys_eq := rfl,
      regs_eq := fun r hr => setReg_regs_ne e 0 hr,
      flag_set := fun ⟨_, _, h, _⟩ => h.elim,
      flag_clear := fun _ => setReg_regs_same e 0xF 0,
      cell_done := fun _ _ h => h.elim,
      cell_other := fun _ _ _ => rfl }
  obtain ⟨s2, hs2, hinv⟩ := drawRows_inv N hinv0 hI hy hx N (Nat.le_refl N)
  refine ⟨s2, ?_, hinv⟩
  simp only [exec, word_fn hD hX hY hN, word_sn hD hX hY hN, word_tn hD hX hY hN,
    word_pn hD hX hY hN, hx256, hy256, hs2]

/-- A non-zero byte has a set bit among its eight bits. -/
theorem byte_has_set_bit (b : Nat) (hb : b ≠ 0) (hlt : b < 256) :
    ∃ j, j < 8 ∧ (b >>> (7 - j)) &&& 1 = 1 := by
  obtain ⟨k, hk⟩ := Nat.ne_zero_implies_bit_true hb
  have hk8 : k < 8 := by
    by_contra hge
    have h1 : b ≥ 2 ^ k := Nat.testBit_implies_ge hk
    have h2 : 2 ^ 8 ≤ 2 ^ k := Nat.pow_le_pow_right (by decide) (by omega)
    omega
  refine ⟨7 - k, by omega, ?_⟩
  have h7 : 7 - (7 - k) = k := by omega
  rw [h7, Nat.and_one_is_mod, Nat.shiftRight_eq_div_pow]
  rw [Nat.testBit_to_div_mod] at hk
  exact of_decide_eq_true hk

theorem edgeSample_WF : edgeSample.WF where
  membuf_lt := fun a _ => by simp only [edgeSample]; split_ifs <;> omega
  regs_lt := fun r _ => by simp only [edgeSample]; split_ifs <;> omega
  I_lt := by simp [edgeSample]
  PC_lt := by simp [edgeSample, blank]
  stack_lt := fun _ _ => by simp [edgeSample, blank]
  delay_lt := by simp [edgeSample, blank]
  sound_lt := by simp [edgeSample, blank]

/-- C12: with X and Y other than 0xF, a sprite that fits the display and the
memory, one of its N bytes non-zero and every covered cell 0 beforehand, the
same DXYN run twice leaves every covered cell 0, the whole display buffer as
before the first draw, and VF = 1 after the second draw. -/
theorem draw_twice_cancels (fss : Emulator → Int) (rnd : Nat → Nat)
    (e : Emulator) (X Y N : Nat) (hwf : e.WF) (hX : X < 16) (hY : Y < 16) (hN : N < 16)
    (hXF : X ≠ 0xF) (hYF : Y ≠ 0xF)
    (hx : e.regs X % 64 + 8 ≤ 64) (hy : e.regs Y % 32 + N ≤ 32) (hI : e.I + N ≤ 4096)
    (hnz : ∃ i, i < N ∧ e.membuf (e.I + i) ≠ 0)
    (hclear : ∀ i j, i < N → j < 8 →
      e.display (e.regs Y % 32 + i) (e.regs X % 64 + j) = 0) :
    ∃ e1 e2, exec fss rnd e (word 0xD X Y N) = .ret 0 e1 ∧
      exec fss rnd e1 (word 0xD X Y N) = .ret 0 e2 ∧
      (∀ i j, i < N → j < 8 →
        e2.display (e.regs Y % 32 + i) (e.regs X % 64 + j) = 0) ∧
      e2.display = e.display ∧ e2.regs 0xF = 1 := by
  obtain ⟨e1, h1, inv1⟩ := exec_draw_inv fss rnd e hX hY hN hx hy hI
  have hx1 : e1.regs X = e.regs X := inv1.regs_eq X hXF
  have hy1 : e1.regs Y = e.regs Y := inv1.regs_eq Y hYF
  obtain ⟨e2, h2, inv2⟩ := exec_draw_inv fss rnd e1 hX hY hN
    (by rw [hx1]; exact hx) (by rw [hy1]; exact hy) (by rw [inv1.I_eq]; exact hI)
  rw [hx1, hy1] at inv2
  have hbit : ∀ i j, spriteBit e1 i j = spriteBit e i j := by
    intro i j
    unfold spriteBit
    rw [inv1.membuf_eq, inv1.I_eq]
  have hdisp : e2.display = e.display := by
    funext r c
    by_cases hcov : ∃ i j, (i < N ∧ j < 8) ∧ r = e.regs Y % 32 + i ∧ c = e.regs X % 64 + j
    · obtain ⟨i, j, hij, hr, hc⟩ := hcov
      subst hr; subst hc
      rw [inv2.cell_done i j hij, inv1.cell_done i j hij, hbit, Nat.xor_assoc,
        Nat.xor_self, Nat.xor_zero]
    · rw [inv2.cell_other r c hcov, inv1.cell_other r c hcov]
  refine ⟨e1, e2, h1, h2, ?_, hdisp, ?_⟩
  · intro i j hi hj
    rw [hdisp]
    exact hclear i j hi hj
  · obtain ⟨i, hi, hne⟩ := hnz
    obtain ⟨j, hj, hset⟩ := byte_has_set_bit (e.membuf (e.I + i)) hne
      (hwf.membuf_lt _ (by show e.I + i < 4096; omega))
    have hsb : spriteBit e i j = 1 := hset
    apply inv2.flag_set
    refine ⟨i, j, ⟨hi, hj⟩, by rw [hbit]; exact hsb, ?_⟩
    rw [inv1.cell_done i j ⟨hi, hj⟩, hclear i j hi hj, hsb]
    rfl

/-- The instance of C12 at `edgeSample` for the word D002: x = 0, y = 0, two
rows 0xFF drawn on cells that are all 0. -/
theorem draw_twice_cancels_witness :
    ∃ e1 e2, exec findstackspace (fun _ => 0) edgeSample (word 0xD 0 0 2) = .ret 0 e1 ∧
      exec findstackspace (fun _ => 0) e1 (word 0xD 0 0 2) = .ret 0 e2 ∧
      (∀ i j, i < 2 → j < 8 →
        e2.display (edgeSample.regs 0 % 32 + i) (edgeSample.regs 0 % 64 + j) = 0) ∧
      e2.display = edgeSample.display ∧ e2.regs 0xF = 1 :=
  draw_twice_cancels findstackspace (fun _ => 0) edgeSample 0 0 2 edgeSample_WF
    (by decide) (by decide) (by decide) (by decide) (by decide) (by decide) (by decide)
    (by decide) ⟨0, by decide, by decide⟩ (fun _ _ _ _ => rfl)

/-! ## The misc family FXNN -/

/-- The call of `parse_FNNN` in `exec`: a result 0 passes the assertion. -/
theorem exec_F_ret (fss : Emulator → Int) (rnd : Nat → Nat) (e e1 : Emulator)
    {X Y n : Nat} (hX : X < 16) (hY : Y < 16) (hn : n < 16)
    (h : parse_FNNN e (word 0xF X Y n) = .ret 0 e1) :
    exec fss rnd e (word 0xF X Y n) = .ret 0 e1 := by
  have hF : (0xF : Nat) < 16 := by decide
  simp only [exec, word_fn hF hX hY hn, h]
  simp

/-- The store loop of FX55 after `m` rounds. -/
theorem storeLoop_eq (e : Emulator) (m : Nat) (h : e.I + m ≤ MEMSIZE) :
    forUpTo m
      (fun i s => s.bind fun e1 =>
        if e1.I + i < MEMSIZE then some (setMem e1 (e1.I + i) (e1.regs i)) else none)
      (some e) =
    some { e with
      membuf := fun a => if e.I ≤ a ∧ a < e.I + m then e.regs (a - e.I) else e.membuf a } := by
  induction m with
  | zero =>
    have hf : (fun a => if e.I ≤ a ∧ a < e.I + 0 then e.regs (a - e.I) else e.membuf a)
        = e.membuf := by
      funext a
      rw [if_neg (by omega)]
    simp only [forUpTo, hf]
  | succ m ih =>
    have hlt : e.I + m < MEMSIZE := by omega
    rw [forUpTo, ih (by omega)]
    simp only [Option.some_bind, if_pos hlt, setMem]
    congr 2
    funext a
    by_cases ha : a = e.I + m
    · subst ha
      rw [Function.update_same, if_pos (by omega), Nat.add_sub_cancel_left]
    · rw [Function.update_noteq ha]
      by_cases hin : e.I ≤ a ∧ a < e.I + m
      · rw [if_pos hin, if_pos (by omega)]
      · rw [if_neg hin, if_neg (by omega)]

/-- The load loop of FX65 after `m` rounds. -/
theorem loadLoop_eq (e : Emulator) (m : Nat) (h : e.I + m ≤ MEMSIZE) :
    forUpTo m
      (fun i s => s.bind fun e1 =>
        if e1.I + i < MEMSIZE then some (setReg e1 i (e1.membuf (e1.I + i))) else none)
      (some e) =
    some { e with regs := fun r => if r < m then e.membuf (e.I + r) else e.regs r } := by
  induction m with
  | zero =>
    simp only [forUpTo, Nat.not_lt_zero, if_false]
  | succ m ih =>
    have hlt : e.I + m < MEMSIZE := by omega
    rw [forUpTo, ih (by omega)]
    simp only [Option.some_bind, if_pos hlt, setReg]
    congr 2
    funext r
    by_cases hr : r = m
    · subst hr
      rw [Function.update_same, if_pos (by omega)]
    · rw [Function.update_noteq hr]
      by_cases hin : r < m
      · rw [if_pos hin, if_pos (by omega)]
      · rw [if_neg hin, if_neg (by omega)]

theorem parse_FNNN_store (e : Emulator) {X : Nat} (hX : X < 16) (h : e.I + X < MEMSIZE) :
    parse_FNNN e (word 0xF X 5 5) =
      .ret 0 { e with
        membuf := fun a =>
          if e.I ≤ a ∧ a < e.I + (X + 1) then e.regs (a - e.I) else e.membuf a } := by
  have hF : (0xF : Nat) < 16 := by decide
  have h5 : (5 : Nat) < 16 := by decide
  simp only [parse_FNNN, word_fn hF hX h5 h5, word_sn hF hX h5 h5, word_tn hF hX h5 h5,
    word_pn hF hX h5 h5, storeLoop_eq e (X + 1) (by omega)]
  simp

theorem parse_FNNN_load (e : Emulator) {X : Nat} (hX : X < 16) (h : e.I + X < MEMSIZE) :
    parse_FNNN e (word 0xF X 6 5) =
      .ret 0 { e with regs := fun r => if r < X + 1 then e.membuf (e.I + r) else e.regs r } := by
  have hF : (0xF : Nat) < 16 := by decide
  have h5 : (5 : Nat) < 16 := by decide
  have h6 : (6 : Nat) < 16 := by decide
  simp only [parse_FNNN, word_fn hF hX h6 h5, word_sn hF hX h6 h5, word_tn hF hX h6 h5,
    word_pn hF hX h6 h5, loadLoop_eq e (X + 1) (by omega)]
  simp

/-- C13: with I + X < 4096, FX55 writes V0..VX to memory[I..I+X] and leaves I,
the registers and every other memory byte as they were; FX65 run on any state
with the same I and the same bytes in memory[I..I+X] sets V0..VX to the values
stored and leaves the registers above VX as they are in that state. -/
theorem store_then_load_restores (fss : Emulator → Int) (rnd : Nat → Nat)
    (e : Emulator) (X : Nat) (hX : X < 16) (hI : e.I + X < 4096) :
    ∃ e1, exec fss rnd e (word 0xF X 5 5) = .ret 0 e1 ∧
      (∀ i, i ≤ X → e1.membuf (e.I + i) = e.regs i) ∧
      e1.I = e.I ∧ e1.regs = e.regs ∧
      (∀ a, a < e.I ∨ e.I + X < a → e1.membuf a = e.membuf a) ∧
      ∀ e2 : Emulator, e2.I = e.I →
        (∀ i, i ≤ X → e2.membuf (e.I + i) = e1.membuf (e.I + i)) →
        ∃ e3, exec fss rnd e2 (word 0xF X 6 5) = .ret 0 e3 ∧
          (∀ i, i ≤ X → e3.regs i = e.regs i) ∧
          (∀ r, X < r → e3.regs r = e2.regs r) := by
  have h5 : (5 : Nat) < 16 := by decide
  have h6 : (6 : Nat) < 16 := by decide
  have hst : ∀ i, i ≤ X →
      (if e.I ≤ e.I + i ∧ e.I + i < e.I + (X + 1) then e.regs (e.I + i - e.I)
        else e.membuf (e.I + i)) = e.regs i := by
    intro i hi
    rw [if_pos (by omega), Nat.add_sub_cancel_left]
  refine ⟨_, exec_F_ret fss rnd e _ hX h5 h5 (parse_FNNN_store e hX hI), hst, rfl, rfl, ?_, ?_⟩
  · intro a ha
    show (if e.I ≤ a ∧ a < e.I + (X + 1) then e.regs (a - e.I) else e.membuf a) = e.membuf a
    rw [if_neg (by omega)]
  · intro e2 hI2 hmem
    refine ⟨_, exec_F_ret fss rnd e2 _ hX h6 h5
      (parse_FNNN_load e2 hX (by rw [hI2]; exact hI)), ?_, ?_⟩
    · intro i hi
      show (if i < X + 1 then e2.membuf (e2.I + i) else e2.regs i) = e.regs i
      rw [if_pos (by omega), hI2, hmem i hi]
      exact hst i hi
    · intro r hr
      show (if r < X + 1 then e2.membuf (e2.I + r) else e2.regs r) = e2.regs r
      rw [if_neg (by omega)]

/-- The instance of C13 at `sample` with X = 2 and I = 0. -/
theorem store_then_load_restores_witness :
    ∃ e1, exec findstackspace (fun _ => 0) sample (word 0xF 2 5 5) = .ret 0 e1 ∧
      (∀ i, i ≤ 2 → e1.membuf (sample.I + i) = sample.regs i) ∧
      e1.I = sample.I ∧ e1.regs = sample.regs ∧
      (∀ a, a < sample.I ∨ sample.I + 2 < a → e1.membuf a = sample.membuf a) ∧
      ∀ e2 : Emulator, e2.I = sample.I →
        (∀ i, i ≤ 2 → e2.membuf (sample.I + i) = e1.membuf (sample.I + i)) →
        ∃ e3, exec findstackspace (fun _ => 0) e2 (word 0xF 2 6 5) = .ret 0 e3 ∧
          (∀ i, i ≤ 2 → e3.regs i = sample.regs i) ∧
          (∀ r, 2 < r → e3.regs r = e2.regs r) :=
  store_then_load_restores findstackspace (fun _ => 0) sample 2 (by decide) (by decide)

theorem parse_FNNN_bcd (e : Emulator) {X : Nat} (hX : X < 16) (h : e.I + 2 < MEMSIZE) :
    parse_FNNN e (word 0xF X 3 3) =
      .ret 0 (setMem (setMem (setMem e e.I ((e.regs X / 100) % 10))
        (e.I + 1) ((e.regs X / 10) % 10)) (e.I + 2) (e.regs X % 10)) := by
  have hF : (0xF : Nat) < 16 := by decide
  have h3 : (3 : Nat) < 16 := by decide
  have h0 : e.I < MEMSIZE := by omega
  have h1 : e.I + 1 < MEMSIZE := by omega
  simp only [parse_FNNN, word_fn hF hX h3 h3, word_sn hF hX h3 h3, word_tn hF hX h3 h3,
    word_pn hF hX h3 h3]
  simp [setMem, h0, h1, h]

/-- C14: with I + 2 < 4096 and v = VX, FX33 stores at memory[I], memory[I+1],
memory[I+2] three decimal digits h, t, o with 100 h + 10 t + o = v and leaves
every other memory byte, the registers and I as they were. -/
theorem bcd_stores_three_digits (fss : Emulator → Int) (rnd : Nat → Nat)
    (e : Emulator) (X : Nat) (hwf : e.WF) (hX : X < 16) (hI : e.I + 2 < 4096) :
    ∃ (e1 : Emulator) (h t o : Nat), exec fss rnd e (word 0xF X 3 3) = .ret 0 e1 ∧
      e1.membuf e.I = h ∧ e1.membuf (e.I + 1) = t ∧ e1.membuf (e.I + 2) = o ∧
      h ≤ 9 ∧ t ≤ 9 ∧ o ≤ 9 ∧ 100 * h + 10 * t + o = e.regs X ∧
      (∀ a, a ≠ e.I → a ≠ e.I + 1 → a ≠ e.I + 2 → e1.membuf a = e.membuf a) ∧
      e1.regs = e.regs ∧ e1.I = e.I := by
  have h3 : (3 : Nat) < 16 := by decide
  have hv := hwf.regs_lt X hX
  refine ⟨_, (e.regs X / 100) % 10, (e.regs X / 10) % 10, e.regs X % 10,
    exec_F_ret fss rnd e _ hX h3 h3 (parse_FNNN_bcd e hX hI), ?_, ?_, ?_,
    by omega, by omega, by omega, by omega, ?_, rfl, rfl⟩
  · simp [setMem]
  · simp [setMem]
  · simp [setMem]
  · intro a h0 h1 h2
    simp [setMem, Function.update_noteq h0, Function.update_noteq h1,
      Function.update_noteq h2]

/-- The instance of C14 at `sample` with X = 1 (v = 200) and I = 0. -/
theorem bcd_stores_three_digits_witness :
    ∃ (e1 : Emulator) (h t o : Nat),
      exec findstackspace (fun _ => 0) sample (word 0xF 1 3 3) = .ret 0 e1 ∧
      e1.membuf sample.I = h ∧ e1.membuf (sample.I + 1) = t ∧ e1.membuf (sample.I + 2) = o ∧
      h ≤ 9 ∧ t ≤ 9 ∧ o ≤ 9 ∧ 100 * h + 10 * t + o = sample.regs 1 ∧
      (∀ a, a ≠ sample.I → a ≠ sample.I + 1 → a ≠ sample.I + 2 →
        e1.membuf a = sample.membuf a) ∧
      e1.regs = sample.regs ∧ e1.I = sample.I :=
  bcd_stores_three_digits findstackspace (fun _ => 0) sample 1 sample_WF (by decide)
    (by decide)

theorem parse_FNNN_addI (e : Emulator) {X : Nat} (hX : X < 16) :
    parse_FNNN e (word 0xF X 1 0xE) =
      if (e.I + e.regs X) % 65536 > 0xFFF then
        .ret 0 (setReg { e with I := (e.I + e.regs X) % 65536 } 0xF 1)
      else .ret 0 { e with I := (e.I + e.regs X) % 65536 } := by
  have hF : (0xF : Nat) < 16 := by decide
  have h1 : (1 : Nat) < 16 := by decide
  have hE : (0xE : Nat) < 16 := by decide
  simp only [parse_FNNN, word_fn hF hX h1 hE, word_sn hF hX h1 hE, word_tn hF hX h1 hE,
    word_pn hF hX h1 hE]
  simp

/-- C15: FX1E leaves I = (old I + old VX) mod 2^16; VF = 1 when that value is
above 0xFFF, and VF keeps its value when it is not. -/
theorem add_to_index_sets_flag_only (fss : Emulator → Int) (rnd : Nat → Nat)
    (e : Emulator) (X : Nat) (hX : X < 16) :
    ∃ e1, exec fss rnd e (word 0xF X 1 0xE) = .ret 0 e1 ∧
      e1.I = (e.I + e.regs X) % 65536 ∧
      ((e.I + e.regs X) % 65536 > 0xFFF → e1.regs 0xF = 1) ∧
      (¬ (e.I + e.regs X) % 65536 > 0xFFF → e1.regs 0xF = e.regs 0xF) := by
  have h1 : (1 : Nat) < 16 := by decide
  have hE : (0xE : Nat) < 16 := by decide
  have hp := parse_FNNN_addI e hX
  by_cases hc : (e.I + e.regs X) % 65536 > 0xFFF
  · rw [if_pos hc] at hp
    exact ⟨_, exec_F_ret fss rnd e _ hX h1 hE hp, rfl, fun _ => setReg_regs_same _ _ _,
      fun h => absurd hc h⟩
  · rw [if_neg hc] at hp
    exact ⟨_, exec_F_ret fss rnd e _ hX h1 hE hp, rfl, fun h => absurd h hc, fun _ => rfl⟩

/-- The instance of C15 at `sample` with X = 1 (I = 0, VX = 200). -/
theorem add_to_index_sets_flag_only_witness :
    ∃ e1, exec findstackspace (fun _ => 0) sample (word 0xF 1 1 0xE) = .ret 0 e1 ∧
      e1.I = (sample.I + sample.regs 1) % 65536 ∧
      ((sample.I + sample.regs 1) % 65536 > 0xFFF → e1.regs 0xF = 1) ∧
      (¬ (sample.I + sample.regs 1) % 65536 > 0xFFF → e1.regs 0xF = sample.regs 0xF) :=
  add_to_index_sets_flag_only findstackspace (fun _ => 0) sample 1 (by decide)

/-! ## Key skips -/

/-- The key skips on a register value that is a key index: EX9E adds 2 to the
program counter when the key is down, EXA1 when it is up, and nothing else
changes. -/
theorem key_skip_in_range (fss : Emulator → Int) (rnd : Nat → Nat) (e : Emulator)
    {X : Nat} (hX : X < 16) (hPC : e.PC < 65536) (hk : e.regs X < 16) :
    exec fss rnd e (word 0xE X 9 0xE) =
        .ret 0 { e with PC := (e.PC + if e.keystates (e.regs X) = 1 then 2 else 0) % 65536 } ∧
    exec fss rnd e (word 0xE X 0xA 1) =
        .ret 0 { e with PC := (e.PC + if e.keystates (e.regs X) = 0 then 2 else 0) % 65536 } := by
  have hE : (0xE : Nat) < 16 := by decide
  have h9 : (9 : Nat) < 16 := by decide
  have hA : (0xA : Nat) < 16 := by decide
  have h1 : (1 : Nat) < 16 := by decide
  constructor
  · simp only [exec, word_fn hE hX h9 hE, word_sn hE hX h9 hE, word_tn hE hX h9 hE,
      word_pn hE hX h9 hE, and_self, if_true, if_pos hk]
    exact skip_or_stay e hPC _
  · simp only [exec, word_fn hE hX hA h1, word_sn hE hX hA h1, word_tn hE hX hA h1,
      word_pn hE hX hA h1]
    simp only [show ¬ ((0xA : Nat) = 0x9 ∧ (1 : Nat) = 0xE) by decide, if_false, and_self,
      if_true, if_pos hk]
    exact skip_or_stay e hPC _

/-- C16: the key skips use the register value as the index without reducing
it. At `sample`, where V1 = 200, the words E19E and E1A1 read `keystates[200]`,
outside the 16 entries. -/
theorem key_skip_index_not_reduced :
    sample.regs 1 = 200 ∧
    exec findstackspace (fun _ => 0) sample 0xE19E = .outOfBounds ∧
    exec findstackspace (fun _ => 0) sample 0xE1A1 = .outOfBounds :=
  ⟨rfl, rfl, rfl⟩

/-! ## Clearing the display -/

/-- The inner loop of 00E0 after `m` rounds in row `i`. -/
theorem clearRow_eq (s : Emulator) (i m : Nat) :
    forUpTo m (fun j s1 => setCell s1 i j 0) s =
      { s with display := fun r c => if r = i ∧ c < m then 0 else s.display r c } := by
  induction m with
  | zero =>
    have hf : (fun r c => if r = i ∧ c < 0 then 0 else s.display r c) = s.display := by
      funext r c
      rw [if_neg (by omega)]
    simp only [forUpTo, hf]
  | succ m ih =>
    rw [forUpTo, ih]
    have key : ∀ r c,
        (setCell { s with display := fun r c => if r = i ∧ c < m then 0 else s.display r c }
          i m 0).display r c = if r = i ∧ c < m + 1 then 0 else s.display r c := by
      intro r c
      rw [setCell_display]
      show (if r = i ∧ c = m then 0 else if r = i ∧ c < m then 0 else s.display r c) =
        if r = i ∧ c < m + 1 then 0 else s.display r c
      split_ifs <;> first | rfl | (exfalso; omega)
    unfold setCell at key ⊢
    congr 1
    funext r c
    exact key r c

/-- The outer loop of 00E0 after `k` rows of width `w`. -/
theorem clearRows_eq (e : Emulator) (w k : Nat) :
    forUpTo k (fun i s => forUpTo w (fun j s1 => setCell s1 i j 0) s) e =
      { e with display := fun r c => if r < k ∧ c < w then 0 else e.display r c } := by
  induction k with
  | zero =>
    have hf : (fun r c => if r < 0 ∧ c < w then 0 else e.display r c) = e.display := by
      funext r c
      rw [if_neg (by omega)]
    simp only [forUpTo, hf]
  | succ k ih =>
    rw [forUpTo, ih, clearRow_eq]
    congr 1
    funext r c
    show (if r = k ∧ c < w then 0 else if r < k ∧ c < w then 0 else e.display r c) =
      if r < k + 1 ∧ c < w then 0 else e.display r c
    split_ifs <;> first | rfl | (exfalso; omega)

/-- C17: the word 0x00E0 makes `exec` return 0 with every cell of the 32 by 64
display buffer at 0 and the registers, I, the program counter, the memory, the
call stack and both timers as they were. -/
theorem clear_screen_zeroes_display (fss : Emulator → Int) (rnd : Nat → Nat)
    (e : Emulator) :
    ∃ e1, exec fss rnd e 0x00E0 = .ret 0 e1 ∧
      (∀ r c, r < 32 → c < 64 → e1.display r c = 0) ∧
      e1.regs = e.regs ∧ e1.I = e.I ∧ e1.PC = e.PC ∧ e1.membuf = e.membuf ∧
      e1.stack = e.stack ∧ e1.delay_timer = e.delay_timer ∧
      e1.sound_timer = e.sound_timer ∧ e1.keystates = e.keystates := by
  have hx : exec fss rnd e 0x00E0 = .ret 0 (forUpTo DISPLAY_HEIGHT
      (fun i s => forUpTo DISPLAY_WIDTH (fun j s1 => setCell s1 i j 0) s) e) := rfl
  rw [clearRows_eq] at hx
  refine ⟨_, hx, ?_, rfl, rfl, rfl, rfl, rfl, rfl, rfl, rfl⟩
  intro r c hr hc
  show (if r < DISPLAY_HEIGHT ∧ c < DISPLAY_WIDTH then 0 else e.display r c) = 0
  rw [if_pos ⟨hr, hc⟩]

/-! ## The decoded fields and the fetched word -/

/-- The word `fetch` builds from two memory bytes. -/
theorem fetch_bytes (hi lo : Nat) (hhi : hi < 256) (hlo : lo < 256) :
    ((hi <<< 8) ||| lo) % 65536 = 256 * hi + lo := by
  have hlow : lo < 2 ^ 8 := by norm_num; exact hlo
  rw [Nat.shiftLeft_eq, Nat.mul_comm, ← Nat.mul_add_lt_is_or hlow]
  norm_num
  omega

/-- C18: the four nibbles `exec` extracts from a 16-bit word w are below 16 and
w = 4096 fn + 256 sn + 16 tn + pn, nn = 16 tn + pn, nnn = 256 sn + nn; `exec`
dispatches on these fields (shown for 1NNN and 6XNN); and `fetch` at an address
i runs `exec` on the big-endian word 256 memory[i] + memory[i+1]. -/
theorem decode_fields_of_word (fss : Emulator → Int) (rnd : Nat → Nat) (e : Emulator)
    (w i : Nat) (hw : w < 65536) (hwf : e.WF) (hi : i + 1 < MEMSIZE) :
    (fields w).fn < 16 ∧ (fields w).sn < 16 ∧ (fields w).tn < 16 ∧ (fields w).pn < 16 ∧
    w = 4096 * (fields w).fn + 256 * (fields w).sn + 16 * (fields w).tn + (fields w).pn ∧
    (fields w).nn = 16 * (fields w).tn + (fields w).pn ∧
    (fields w).nnn = 256 * (fields w).sn + (fields w).nn ∧
    ((fields w).fn = 0x1 → exec fss rnd e w = .ret 0 { e with PC := (fields w).nnn }) ∧
    ((fields w).fn = 0x6 →
      exec fss rnd e w = .ret 0 (setReg e (fields w).sn (fields w).nn)) ∧
    fetch fss rnd e i =
      match exec fss rnd (skip e) (256 * e.membuf i + e.membuf (i + 1)) with
      | .ret r e2 => if r ≠ 0 then .ret (-1) e2 else .ret 0 e2
      | o => o := by
  simp only [fields, fn_eq, sn_eq, tn_eq, pn_eq, nn_eq, nnn_eq]
  refine ⟨by omega, by omega, by omega, by omega, by omega, by omega, by omega, ?_, ?_, ?_⟩
  · intro h
    simp only [exec, fn_eq, nnn_eq, h]
  · intro h
    simp only [exec, fn_eq, sn_eq, nn_eq, h]
  · exact fetch_eq fss rnd e i _ hi
      (fetch_bytes _ _ (hwf.membuf_lt i (by omega)) (hwf.membuf_lt (i + 1) hi))

/-- The instance of C18 at `returnOnly` for the word 0x6A05 and the address
0x200, where the memory holds 0x00 and 0xEE. -/
theorem decode_fields_of_word_witness :
    (fields 0x6A05).fn < 16 ∧ (fields 0x6A05).sn < 16 ∧ (fields 0x6A05).tn < 16 ∧
    (fields 0x6A05).pn < 16 ∧
    0x6A05 = 4096 * (fields 0x6A05).fn + 256 * (fields 0x6A05).sn
      + 16 * (fields 0x6A05).tn + (fields 0x6A05).pn ∧
    (fields 0x6A05).nn = 16 * (fields 0x6A05).tn + (fields 0x6A05).pn ∧
    (fields 0x6A05).nnn = 256 * (fields 0x6A05).sn + (fields 0x6A05).nn ∧
    ((fields 0x6A05).fn = 0x1 → exec findstackspace (fun _ => 0) returnOnly 0x6A05 =
      .ret 0 { returnOnly with PC := (fields 0x6A05).nnn }) ∧
    ((fields 0x6A05).fn = 0x6 → exec findstackspace (fun _ => 0) returnOnly 0x6A05 =
      .ret 0 (setReg returnOnly (fields 0x6A05).sn (fields 0x6A05).nn)) ∧
    fetch findstackspace (fun _ => 0) returnOnly 0x200 =
      match exec findstackspace (fun _ => 0) (skip returnOnly)
        (256 * returnOnly.membuf 0x200 + returnOnly.membuf (0x200 + 1)) with
      | .ret r e2 => if r ≠ 0 then .ret (-1) e2 else .ret 0 e2
      | o => o :=
  decode_fields_of_word findstackspace (fun _ => 0) returnOnly 0x6A05 0x200 (by decide)
    { membuf_lt := fun a _ => by simp only [returnOnly]; split_ifs <;> omega
      regs_lt := fun _ _ => by simp [returnOnly, blank]
      I_lt := by simp [returnOnly, blank]
      PC_lt := by simp [returnOnly, blank]
      stack_lt := fun _ _ => by simp [returnOnly, blank]
      delay_lt := by simp [returnOnly, blank]
      sound_lt := by simp [returnOnly, blank] }
    (by decide)

/-! ## Key events of the run loop -/

/-- The result of `check_keyboard` is a key index or -1. -/
theorem check_keyboard_range (sym : Nat) :
    check_keyboard sym = -1 ∨ (0 ≤ check_keyboard sym ∧ check_keyboard sym < 16) := by
  have key : ∀ d : Int, check_keyboard sym = d → d = -1 ∨ (0 ≤ d ∧ d < 16) := by
    intro d hd
    unfold check_keyboard at hd
    omega
  exact key _ rfl

/-- A key that `check_keyboard` does not name gives -1, and the key cases of the
run loop then index outside `keystates`. -/
theorem onKey_unmapped (e : Emulator) (sym : Nat) (h : check_keyboard sym = -1) :
    onKeyDown e sym = none ∧ onKeyUp e sym = none := by
  simp [onKeyDown, onKeyUp, h]

/-- C19: the index the run loop writes `keystates` at is not always in 0..15.
For a key-down or key-up event of the key P (code 112) `check_keyboard`
returns -1 and the loop writes `keystates[-1]`; the FX0A loop of `parse_FNNN`
tests the same result against -1 before it uses it. -/
theorem key_event_index_can_be_negative :
    check_keyboard SDLK_p = -1 ∧ ¬ (0 ≤ check_keyboard SDLK_p ∧ check_keyboard SDLK_p < 16) ∧
    onKeyDown blank SDLK_p = none ∧ onKeyUp blank SDLK_p = none := by
  refine ⟨rfl, by decide, rfl, rfl⟩

/-! ## What `exec` returns -/

/-- The result `exec` returns is 0 whenever it returns: the default branch of
its switch is never taken. -/
theorem exec_ret_is_zero (fss : Emulator → Int) (rnd : Nat → Nat) (e e1 : Emulator)
    (w : Nat) (r : Int) (h : exec fss rnd e w = .ret r e1) : r = 0 := by
  have hfn : (0xF000 &&& w) >>> 12 < 16 := by rw [fn_eq]; omega
  simp only [exec] at h
  generalize (0xF000 &&& w) >>> 12 = k at h hfn
  interval_cases k <;> simp only [] at h
  all_goals first
    | (injection h with h1 _; exact h1.symm)
    | (split_ifs at h <;> (injection h with h1 _; exact h1.symm))
    | (split at h <;> first
        | (injection h with h1 _; exact h1.symm)
        | (cases h)
        | (split_ifs at h <;> (injection h with h1 _; exact h1.symm))
        | (rename_i hno; exact absurd h (hno r e1)))

/-- C20 as the code has it: `exec` never returns a non-zero result, since the
family nibble is below 16 and the default branch is not taken. It returns 0
for every word of the families 0, 1, 3 to 7, 9, A, B and C; for 2NNN when
`findstackspace` gives a slot index (a negative result stops in the assertion);
for DXYN when the sprite fits the display and the memory; for the family E
when VX is below 16. A word of the families 0, 5, 9 and E that is no defined
opcode returns 0 and leaves the machine state as it was. -/
theorem exec_returns_zero_unless_stopped (fss : Emulator → Int) (rnd : Nat → Nat)
    (e : Emulator) :
    (∀ w r e1, exec fss rnd e w = .ret r e1 → r = 0) ∧
    (∀ w, (fields w).fn ∈ [0x0, 0x1, 0x3, 0x4, 0x5, 0x6, 0x7, 0x9, 0xA, 0xB, 0xC] →
      ∃ e1, exec fss rnd e w = .ret 0 e1) ∧
    (∀ w, (fields w).fn = 0x2 →
      (0 ≤ fss e ∧ fss e < 16 → ∃ e1, exec fss rnd e w = .ret 0 e1) ∧
      (fss e < 0 → exec fss rnd e w = .abort e)) ∧
    (∀ X Y N, X < 16 → Y < 16 → N < 16 → e.regs X % 64 + 8 ≤ 64 →
      e.regs Y % 32 + N ≤ 32 → e.I + N ≤ 4096 →
      ∃ e1, exec fss rnd e (word 0xD X Y N) = .ret 0 e1) ∧
    (∀ w, (fields w).fn = 0xE → e.regs (fields w).sn < 16 →
      ∃ e1, exec fss rnd e w = .ret 0 e1) ∧
    (∀ w, (fields w).fn = 0x0 → w ≠ 0x00E0 → w ≠ 0x00EE → exec fss rnd e w = .ret 0 e) ∧
    (∀ w, (fields w).fn = 0x5 ∨ (fields w).fn = 0x9 → (fields w).pn ≠ 0 →
      exec fss rnd e w = .ret 0 e) ∧
    (∀ w, (fields w).fn = 0xE → ¬ ((fields w).tn = 0x9 ∧ (fields w).pn = 0xE) →
      ¬ ((fields w).tn = 0xA ∧ (fields w).pn = 0x1) → exec fss rnd e w = .ret 0 e) := by
  refine ⟨fun w r e1 h => exec_ret_is_zero fss rnd e e1 w r h, ?_, ?_, ?_, ?_, ?_, ?_, ?_⟩
  · intro w h
    simp only [fields, List.mem_cons, List.mem_singleton, List.mem_nil_iff, or_false] at h
    rcases h with h | h | h | h | h | h | h | h | h | h | h <;> simp only [exec, h] <;>
      first
        | exact ⟨_, rfl⟩
        | (split_ifs <;> exact ⟨_, rfl⟩)
  · intro w h
    simp only [fields] at h
    constructor
    · rintro ⟨h0, h16⟩
      have h16b : fss e < (STACKSIZE : Int) := h16
      simp only [exec, h, ge_iff_le, if_pos h0, if_pos h16b]
      exact ⟨_, rfl⟩
    · intro hneg
      have hno : ¬ (0 ≤ fss e) := by omega
      simp only [exec, h, ge_iff_le, if_neg hno]
  · intro X Y N hX hY hN hx hy hI
    obtain ⟨e1, h1, -⟩ := exec_draw_inv fss rnd e hX hY hN hx hy hI
    exact ⟨e1, h1⟩
  · intro w h hk
    simp only [fields] at h hk
    simp only [exec, h, if_pos hk]
    split_ifs <;> exact ⟨_, rfl⟩
  · intro w h h1 h2
    simp only [fields] at h
    simp only [exec, h, if_neg h1, if_neg h2]
  · intro w h hpn
    simp only [fields] at h hpn
    rcases h with h | h <;> simp only [exec, h, if_neg hpn]
  · intro w h h1 h2
    simp only [fields] at h h1 h2
    simp only [exec, h, if_neg h1, if_neg h2]

/-- The instance of the amended C20 at `blank` for the words 0x0123, 0x5121 and
0xE100, none of them a defined opcode, and for the call 0x2345. -/
theorem exec_returns_zero_unless_stopped_witness :
    exec findstackspace (fun _ => 0) blank 0x0123 = .ret 0 blank ∧
    exec findstackspace (fun _ => 0) blank 0x5121 = .ret 0 blank ∧
    exec findstackspace (fun _ => 0) blank 0xE100 = .ret 0 blank ∧
    (∃ e1, exec findstackspace (fun _ => 0) blank 0x2345 = .ret 0 e1) :=
  have h := exec_returns_zero_unless_stopped findstackspace (fun _ => 0) blank
  ⟨h.2.2.2.2.2.1 0x0123 rfl (by decide) (by decide),
    h.2.2.2.2.2.2.1 0x5121 (Or.inl rfl) (by decide),
    h.2.2.2.2.2.2.2 0xE100 rfl (by decide) (by decide),
    (h.2.2.1 0x2345 rfl).1 (by decide)⟩

/-- C20 fails at `fullStack`, where all 16 slots are occupied: `findstackspace`
gives -1 and the call 0x2345 stops in `assert(i >= 0)` instead of returning 0.
It also fails at `sample`, where V1 = 200: the word E19E indexes `keystates`
outside its 16 entries. -/
theorem exec_returns_zero_counterexample :
    (∀ s, s < STACKSIZE → fullStack.stack s ≠ 0xFFFF) ∧
    findstackspace fullStack = -1 ∧
    exec findstackspace (fun _ => 0) fullStack 0x2345 = .abort fullStack ∧
    ¬ (∃ e1, exec findstackspace (fun _ => 0) fullStack 0x2345 = .ret 0 e1) ∧
    exec findstackspace (fun _ => 0) sample 0xE19E = .outOfBounds := by
  refine ⟨fun s _ => ?_, rfl, rfl, ?_, rfl⟩
  · show (0x200 : Nat) ≠ 0xFFFF
    decide
  rintro ⟨e1, h⟩
  have h0 : exec findstackspace (fun _ => 0) fullStack 0x2345 = .abort fullStack := rfl
  rw [h0] at h
  cases h

end Chip8
